import Mathlib

/-!
Verification of the conVerge backend core: the in-memory conversation graph
store (`backend/app/store.py`), the ancestry-based context builder and the
streaming branch endpoint (`backend/app/api/conversations.py`,
`backend/app/api/nodes.py`), and the multi-candidate streaming LLM fallback
(`backend/app/services/llm.py`).

Identifiers (Python `uuid4` values) are modelled as natural numbers.  Python
dictionaries keyed by id are modelled as lists together with a key-respecting
insert (`dictInsertBy`), which replaces an existing entry with the same key and
otherwise appends — exactly the observable behaviour of an insertion-ordered
`dict`.  Timestamp fields (`created_at`, `updated_at`) and `tokens_used` are
omitted: no verified property mentions them.
-/

/-- `models.ConversationNode` (timestamps and `tokens_used` omitted). -/
structure ConversationNode where
  id : Nat
  conversation_id : Nat
  parent_id : Option Nat
  context : String
  response : Option String
  query : Option String
  model : Option String
  latency_ms : Option Nat
deriving Repr, DecidableEq

/-- `models.ConversationEdge` (timestamp omitted). -/
structure ConversationEdge where
  id : Nat
  source_node_id : Nat
  target_node_id : Nat
  query_text : String
deriving Repr, DecidableEq

/-- `models.Conversation` (timestamps omitted). -/
structure Conversation where
  id : Nat
  title : String
  root_node_id : Nat
  active_node_id : Nat
deriving Repr, DecidableEq

/-- `store.InMemoryStore`.  The three dictionaries of the Python class, plus a
ghost field `usedIds` recording every identifier ever produced by `uuid4`;
it models the global uniqueness of generated UUIDs (an id handed out once is
never handed out again, even after the entity holding it was deleted).  The
Python store operations never read it; the API-level operations append the
fresh ids they generate. -/
structure InMemoryStore where
  conversations : List Conversation
  nodes : List ConversationNode
  edges : List ConversationEdge
  usedIds : List Nat
deriving Repr, DecidableEq

/-- The empty store (`InMemoryStore.__init__`). -/
def emptyStore : InMemoryStore := ⟨[], [], [], []⟩

/-- Keyed insertion into an insertion-ordered dictionary modelled as a list:
`d[key x] = x` replaces in place when the key is present and appends
otherwise. -/
def dictInsertBy (key : α → Nat) (l : List α) (x : α) : List α :=
  if l.any (fun y => key y = key x) then
    l.map (fun y => if key y = key x then x else y)
  else
    l ++ [x]

namespace InMemoryStore

/-- `InMemoryStore.get_conversation`. -/
def getConversation (s : InMemoryStore) (cid : Nat) : Option Conversation :=
  s.conversations.find? (fun c => c.id = cid)

/-- `InMemoryStore.get_node`. -/
def getNode (s : InMemoryStore) (nid : Nat) : Option ConversationNode :=
  s.nodes.find? (fun n => n.id = nid)

/-- `InMemoryStore.get_edge`. -/
def getEdge (s : InMemoryStore) (eid : Nat) : Option ConversationEdge :=
  s.edges.find? (fun e => e.id = eid)

/-- `InMemoryStore.create_conversation`. -/
def createConversation (s : InMemoryStore) (c : Conversation) : InMemoryStore :=
  { s with conversations := dictInsertBy Conversation.id s.conversations c }

/-- `InMemoryStore.create_node`. -/
def createNode (s : InMemoryStore) (n : ConversationNode) : InMemoryStore :=
  { s with nodes := dictInsertBy ConversationNode.id s.nodes n }

/-- `InMemoryStore.create_edge`. -/
def createEdge (s : InMemoryStore) (e : ConversationEdge) : InMemoryStore :=
  { s with edges := dictInsertBy ConversationEdge.id s.edges e }

/-- `InMemoryStore.delete_conversation`: remove the conversation, every node
belonging to it, and every edge whose source or target is among those nodes;
report `false` without touching anything when the id is unknown. -/
def deleteConversation (s : InMemoryStore) (cid : Nat) : InMemoryStore × Bool :=
  match s.getConversation cid with
  | none => (s, false)
  | some _ =>
    let nodesToDelete := (s.nodes.filter (fun n => n.conversation_id = cid)).map (·.id)
    let nodes1 := s.nodes.filter (fun n => ¬ nodesToDelete.contains n.id)
    let edges1 := s.edges.filter (fun e =>
      ¬ (nodesToDelete.contains e.source_node_id ∨ nodesToDelete.contains e.target_node_id))
    ({ s with
        conversations := s.conversations.filter (fun c => c.id ≠ cid),
        nodes := nodes1,
        edges := edges1 }, true)

/-- Ids of the direct children of `pid` (the inner comprehension of
`get_descendants` inside `InMemoryStore.delete_node`). -/
def childIdsOf (s : InMemoryStore) (pid : Nat) : List Nat :=
  (s.nodes.filter (fun n => n.parent_id = some pid)).map (·.id)

/-- The recursive `get_descendants` helper of `InMemoryStore.delete_node`:
children first, then each child's descendants.  The Python recursion has no
fuel; it terminates on every acyclic store, and `delete_node` calls it with
fuel `s.nodes.length`, which the acyclicity lemmas below show is enough. -/
def getDescendants (s : InMemoryStore) : Nat → Nat → List Nat
  | 0, _ => []
  | fuel + 1, pid =>
    let children := childIdsOf s pid
    children ++ children.flatMap (getDescendants s fuel)

/-- `InMemoryStore.delete_node`: collect descendants, delete them, delete every
edge incident to the node or a descendant, then delete the node itself. -/
def deleteNode (s : InMemoryStore) (nid : Nat) : InMemoryStore × Bool :=
  match s.getNode nid with
  | none => (s, false)
  | some _ =>
    let descendants := getDescendants s s.nodes.length nid
    let nodes1 := (s.nodes.filter (fun n => ¬ descendants.contains n.id)).filter
      (fun n => n.id ≠ nid)
    let edges1 := s.edges.filter (fun e =>
      ¬ (e.source_node_id = nid ∨ e.target_node_id = nid ∨
          descendants.contains e.source_node_id ∨ descendants.contains e.target_node_id))
    ({ s with nodes := nodes1, edges := edges1 }, true)

/-- The loop body of `InMemoryStore.get_ancestors`: follow `parent_id`,
inserting each visited node at the front of the accumulated path; stop on a
node with no parent or on a dangling parent reference.  The Python `while`
loop has no fuel; sufficient fuel is supplied by `get_ancestors` below. -/
def getAncestorsAux (s : InMemoryStore) :
    Nat → Option ConversationNode → List ConversationNode → List ConversationNode
  | 0, _, path => path
  | _, none, path => path
  | fuel + 1, some n, path =>
    match n.parent_id with
    | some pid => getAncestorsAux s fuel (s.getNode pid) (n :: path)
    | none => n :: path

/-- `InMemoryStore.get_ancestors`: path from the root to the node, inclusive;
the empty list when the id is unknown. -/
def getAncestors (s : InMemoryStore) (nid : Nat) : List ConversationNode :=
  getAncestorsAux s (s.nodes.length + 1) (s.getNode nid) []

end InMemoryStore

/-! ## The OpenRouter streaming client (`services/llm.py`) -/

/-- `OpenRouterClient.free_models`: the fixed ranked list of free-tier model
identifiers tried in order when no model is requested. -/
def freeModels : List String :=
  ["meta-llama/llama-3.3-70b-instruct:free",
   "meta-llama/llama-3.2-3b-instruct:free",
   "amazon/nova-2-lite-v1:free",
   "openai/gpt-oss-20b:free",
   "google/gemma-3-27b-it:free",
   "mistralai/mistral-7b-instruct:free",
   "nvidia/nemotron-nano-9b-v2:free",
   "alibaba/tongyi-deepresearch-30b-a3b:free",
   "moonshotai/kimi-k2:free"]

/-- Python truthiness of an `Optional[str]`: `None` and the empty string are
falsy, everything else truthy. -/
def pyTruthy : Option String → Bool
  | none => false
  | some s => !s.isEmpty

/-- `models_to_try = [model] if model else self.free_models` in
`OpenRouterClient.stream_response` (`if model` is Python truthiness). -/
def modelsToTry (model : Option String) (free : List String) : List String :=
  if pyTruthy model then [model.getD ""] else free

/-- One line of the accepted candidate's SSE stream, as seen by the loop body
of `stream_response`: a `data:` line carrying a parsed delta content (`none`
when the JSON is malformed or the content field is missing), the terminator
line `data: [DONE]`, or any other line (skipped by the `startswith` guard). -/
inductive SSELine where
  | payload (content : Option String)
  | doneMark
  | skipped
deriving Repr, DecidableEq

/-- Process the lines of an accepted stream: collect the contents yielded
before the first `[DONE]` terminator (a content is yielded only when truthy,
i.e. present and non-empty — the walrus `if content := ...` test), and report
whether the terminator was reached. -/
def processLines : List SSELine → List String × Bool
  | [] => ([], false)
  | SSELine.doneMark :: _ => ([], true)
  | SSELine.payload c :: rest =>
    let r := processLines rest
    if pyTruthy c then (c.getD "" :: r.1, r.2) else r
  | SSELine.skipped :: rest => processLines rest

/-- The observable behaviour of one candidate model on one streaming call
(the Completion Engine contract of spec section 6):
* `reject status body` — the HTTP response has a non-200 status; the client
  records `HTTP status: body` as the last error and moves on;
* `connectError e` — an exception before any data arrives (connection
  failure); caught by the generic handler, `e` recorded, move on;
* `accept lines midError` — status 200; the listed lines arrive in order and
  then either the iteration ends (`midError = none`) or an exception `e`
  interrupts the stream (`midError = some e`).  A `[DONE]` line among `lines`
  ends the call successfully before any later exception can fire. -/
inductive CandidateBehavior where
  | reject (status : Nat) (body : String)
  | connectError (e : String)
  | accept (lines : List SSELine) (midError : Option String)
deriving Repr, DecidableEq

/-- A Completion Engine: each (system context, user payload, model name)
triple determines the candidate's behaviour. -/
def Engine := String → String → String → CandidateBehavior

/-- Result of one full run of `stream_response`: the candidates actually
attempted (in order), the tokens yielded to the consumer (in order), and
either normal termination or the final raised exception's message. -/
instance {ε α : Type} [DecidableEq ε] [DecidableEq α] : DecidableEq (Except ε α) :=
  fun a b =>
  match a, b with
  | Except.ok x, Except.ok y =>
    if h : x = y then isTrue (by rw [h])
    else isFalse (by intro hc; cases hc; exact h rfl)
  | Except.error x, Except.error y =>
    if h : x = y then isTrue (by rw [h])
    else isFalse (by intro hc; cases hc; exact h rfl)
  | Except.ok _, Except.error _ => isFalse (by intro h; cases h)
  | Except.error _, Except.ok _ => isFalse (by intro h; cases h)

structure StreamRun where
  attempted : List String
  tokens : List String
  result : Except String Unit
deriving Repr, DecidableEq

/-- `f"All models failed. Last error: {last_error}"` (Python prints `None`
for an unset last error). -/
def allFailedMsg : Option String → String
  | none => "All models failed. Last error: None"
  | some e => "All models failed. Last error: " ++ e

/-- The `for model_name in models_to_try` loop of
`OpenRouterClient.stream_response`.  A non-200 status or an exception —
including an exception thrown mid-stream after tokens were already yielded —
records the error and advances to the next candidate; a candidate that
reaches `[DONE]` or exhausts its lines without error ends the run
successfully; an exhausted candidate list raises the `All models failed`
exception carrying the last recorded error. -/
def runCandidates (engine : Engine) (ctx q : String) :
    List String → Option String → StreamRun
  | [], lastError => ⟨[], [], Except.error (allFailedMsg lastError)⟩
  | m :: rest, _lastError =>
    match engine ctx q m with
    | CandidateBehavior.reject status body =>
      let r := runCandidates engine ctx q rest
        (some ("HTTP " ++ toString status ++ ": " ++ body))
      ⟨m :: r.attempted, r.tokens, r.result⟩
    | CandidateBehavior.connectError e =>
      let r := runCandidates engine ctx q rest (some e)
      ⟨m :: r.attempted, r.tokens, r.result⟩
    | CandidateBehavior.accept lines midError =>
      let p := processLines lines
      if p.2 then ⟨[m], p.1, Except.ok ()⟩
      else
        match midError with
        | none => ⟨[m], p.1, Except.ok ()⟩
        | some e =>
          let r := runCandidates engine ctx q rest (some e)
          ⟨m :: r.attempted, p.1 ++ r.tokens, r.result⟩

/-- `OpenRouterClient.stream_response`. -/
def streamResponse (engine : Engine) (ctx q : String) (model : Option String) :
    StreamRun :=
  runCandidates engine ctx q (modelsToTry model freeModels) none

/-! ## The API layer (`api/conversations.py`, `api/nodes.py`) -/

/-- An `HTTPException(status_code, detail)` raised by an endpoint. -/
structure HttpError where
  status : Nat
  detail : String
deriving Repr, DecidableEq

/-- `schemas.BranchRequest`: the single message received on the websocket. -/
structure BranchRequest where
  query : String
  model : Option String
  parent_node_id : Option Nat
deriving Repr, DecidableEq

/-- A message sent to the websocket client: a streamed token, the final
completion message (node id plus `latency_ms`/`model` metadata), or an error
message. -/
inductive Message where
  | token (content : String)
  | complete (node_id : Nat) (latency_ms : Nat) (model : String)
  | error (message : String)
deriving Repr, DecidableEq

/-- `POST /api/conversations` (`create_conversation` in
`api/conversations.py`): build the conversation and its root node (the
temporary `UUID(int=0)` placeholders are immediately overwritten with the
root node's id before anything is stored, so the net construction is used
here), store the node then the conversation.  `cid` and `nid` are the two
fresh `uuid4` values; they are appended to the ghost `usedIds`. -/
def createConversationApi (s : InMemoryStore) (title initialContext : String)
    (cid nid : Nat) : InMemoryStore × Nat × Nat :=
  let conversation : Conversation :=
    { id := cid, title := title, root_node_id := nid, active_node_id := nid }
  let rootNode : ConversationNode :=
    { id := nid, conversation_id := cid, parent_id := none,
      context := initialContext, response := none, query := none,
      model := none, latency_ms := none }
  let s1 := (s.createNode rootNode).createConversation conversation
  ({ s1 with usedIds := s1.usedIds ++ [cid, nid] }, cid, nid)

/-- `POST /api/conversations/id/select` (`select_node`): 404 when the
conversation or node is unknown, 400 when the node belongs to another
conversation, otherwise reassign `active_node_id` (in-place mutation of the
stored conversation object). -/
def selectNodeApi (s : InMemoryStore) (cid nid : Nat) :
    InMemoryStore × Except HttpError Nat :=
  match s.getConversation cid with
  | none => (s, Except.error ⟨404, "Conversation not found"⟩)
  | some _ =>
    match s.getNode nid with
    | none => (s, Except.error ⟨404, "Node not found"⟩)
    | some node =>
      if node.conversation_id ≠ cid then
        (s, Except.error ⟨400, "Node does not belong to this conversation"⟩)
      else
        let convs := s.conversations.map
          (fun c => if c.id = cid then { c with active_node_id := nid } else c)
        ({ s with conversations := convs }, Except.ok nid)

/-- `DELETE /api/nodes/id` (`delete_node` in `api/nodes.py`): 404 when
unknown, 400 when the node is a root (`parent_id is None`), otherwise the
store-level cascading delete. -/
def deleteNodeApi (s : InMemoryStore) (nid : Nat) :
    InMemoryStore × Except HttpError Nat :=
  match s.getNode nid with
  | none => (s, Except.error ⟨404, "Node not found"⟩)
  | some node =>
    if node.parent_id = none then
      (s, Except.error ⟨400, "Cannot delete root node. Delete the conversation instead."⟩)
    else
      ((s.deleteNode nid).1, Except.ok nid)

/-- `GET /api/nodes/id/ancestors` (`get_ancestors` in `api/nodes.py`): 404
when the id is unknown, otherwise the store-level root-to-node path. -/
def getAncestorsApi (s : InMemoryStore) (nid : Nat) :
    Except HttpError (List ConversationNode) :=
  match s.getNode nid with
  | none => Except.error ⟨404, "Node not found"⟩
  | some _ => Except.ok (s.getAncestors nid)

/-- `DELETE /api/conversations/id` (`delete_conversation`): 404 when the
store reports failure, otherwise the cascaded deletion. -/
def deleteConversationApi (s : InMemoryStore) (cid : Nat) :
    InMemoryStore × Except HttpError Nat :=
  let r := s.deleteConversation cid
  if r.2 then (r.1, Except.ok cid) else (s, Except.error ⟨404, "Conversation not found"⟩)

/-! ## The streaming branch turn (`websocket_stream` in `api/conversations.py`) -/

/-- Python `str.strip()`: drop leading and trailing whitespace.  Implemented
structurally over the character list (Lean's own `String.trim` is defined by
well-founded recursion over byte positions, which blocks kernel evaluation). -/
def pyStrip (s : String) : String :=
  ⟨((s.data.dropWhile Char.isWhitespace).reverse.dropWhile Char.isWhitespace).reverse⟩

/-- The transcript fragments contributed by one non-root ancestor: the
`User:`/`Assistant:` pair exactly when both `query` and `response` are truthy
(`if ancestor.query and ancestor.response:` — Python truthiness of the two
optional strings), nothing otherwise. -/
def ancestorFragments (a : ConversationNode) : List String :=
  if pyTruthy a.query && pyTruthy a.response then
    ["User: " ++ a.query.getD "", "Assistant: " ++ a.response.getD ""]
  else []

/-- The `context_parts` list built by `websocket_stream`: the root ancestor's
`context`, the qualifying `User:`/`Assistant:` pairs of the remaining
ancestors in root-to-leaf order, and finally `User:` followed by the new
query.  The Python code indexes `ancestors[0]`, which exists whenever the
parent node was found; the empty-ancestors case is unreachable there. -/
def buildContextParts (ancestors : List ConversationNode) (query : String) :
    List String :=
  match ancestors with
  | [] => []
  | root :: rest =>
    root.context :: (rest.flatMap ancestorFragments ++ ["User: " ++ query])

/-- Everything `websocket_stream` has computed by the time the eager
node/edge creation and active-node reassignment are done — i.e. the state of
the world immediately before the first token could arrive. -/
structure PreparedTurn where
  store : InMemoryStore
  parentId : Nat
  newNode : ConversationNode
  sysContext : String
  userPayload : String
deriving Repr, DecidableEq

/-- The part of `websocket_stream` that runs before any streaming: resolve
the conversation and the parent node (defaulting to the active node), build
the context from the ancestor path, eagerly create the new node
(`response = ""`, `query` = request query, `model` = requested model or
null) and its edge, and reassign `active_node_id` — all before any token is
produced.  Errors are the exact strings sent as stream error messages.
`nid` and `eid` are the fresh `uuid4` ids of the node and edge. -/
def branchPrepare (s : InMemoryStore) (cid : Nat) (req : BranchRequest)
    (nid eid : Nat) : Except String PreparedTurn :=
  match s.getConversation cid with
  | none => Except.error "Conversation not found"
  | some conversation =>
    let parentId := req.parent_node_id.getD conversation.active_node_id
    match s.getNode parentId with
    | none => Except.error "Parent node not found"
    | some _ =>
      let ancestors := s.getAncestors parentId
      let contextParts := buildContextParts ancestors req.query
      let fullContext := String.intercalate "\n\n" contextParts
      let newNode : ConversationNode :=
        { id := nid, conversation_id := cid, parent_id := some parentId,
          context := fullContext, response := some "", query := some req.query,
          model := req.model, latency_ms := none }
      let edge : ConversationEdge :=
        { id := eid, source_node_id := parentId, target_node_id := nid,
          query_text := req.query }
      let s1 := (s.createNode newNode).createEdge edge
      let convs := s1.conversations.map
        (fun c => if c.id = cid then { c with active_node_id := nid } else c)
      let s2 := { s1 with conversations := convs, usedIds := s1.usedIds ++ [nid, eid] }
      Except.ok
        { store := s2, parentId := parentId, newNode := newNode,
          sysContext := ((ancestors.head?).map (fun n => n.context)).getD "",
          userPayload :=
            pyStrip (String.intercalate "\n" (contextParts.drop 1) ++
              "\n\nUser: " ++ req.query) }

/-- The streaming call made by `websocket_stream`: note the hard-coded
`model=None` at the call site (the requested model is *not* forwarded), so
the candidate list is always the full free-model fallback list. -/
def turnRun (prep : PreparedTurn) (engine : Engine) : StreamRun :=
  streamResponse engine prep.sysContext prep.userPayload none

/-- Python `a or b` on an optional string: `b` when `a` is `None` or empty. -/
def pyOrStr (a : Option String) (b : String) : String :=
  if pyTruthy a then a.getD "" else b

/-- The whole websocket turn: prepare eagerly, stream, and either finalize
the node (response, latency, model sentinel) and send `complete`, or leave
the eagerly created node untouched and send the exception text as a stream
error.  Returns the final store and the ordered messages sent to the
client.  `elapsedMs` stands for the measured wall-clock latency. -/
def websocketStream (s : InMemoryStore) (cid : Nat) (req : BranchRequest)
    (engine : Engine) (nid eid elapsedMs : Nat) : InMemoryStore × List Message :=
  match branchPrepare s cid req nid eid with
  | Except.error msg => (s, [Message.error msg])
  | Except.ok prep =>
    let run := turnRun prep engine
    match run.result with
    | Except.error e =>
      (prep.store, run.tokens.map Message.token ++ [Message.error e])
    | Except.ok _ =>
      let finalNode := { prep.newNode with
        response := some (String.join run.tokens),
        latency_ms := some elapsedMs,
        model := some (pyOrStr req.model "auto-selected-free-model") }
      let nodes1 := prep.store.nodes.map (fun n => if n.id = nid then finalNode else n)
      ({ prep.store with nodes := nodes1 },
       run.tokens.map Message.token ++
         [Message.complete nid elapsedMs (pyOrStr req.model "auto-selected-free-model")])

/-! ## Behaviour classification of one candidate attempt -/

/-- A candidate that fails before emitting anything: non-200 status, or an
exception before the stream starts. -/
def rejectsUpFront : CandidateBehavior → Bool
  | CandidateBehavior.reject _ _ => true
  | CandidateBehavior.connectError _ => true
  | CandidateBehavior.accept _ _ => false

/-- A candidate whose streaming call was accepted (status 200). -/
def acceptsCall (b : CandidateBehavior) : Bool := !rejectsUpFront b

/-- The tokens an accepted candidate would deliver to the consumer. -/
def behaviorTokens : CandidateBehavior → List String
  | CandidateBehavior.accept lines _ => (processLines lines).1
  | _ => []

/-- A candidate that is accepted, does not reach the `[DONE]` terminator, and
then raises mid-stream. -/
def failsMidStream : CandidateBehavior → Bool
  | CandidateBehavior.accept lines (some _) => !(processLines lines).2
  | _ => false

/-- Whether a run ended by raising an exception. -/
def isErrorResult : Except String Unit → Bool
  | Except.error _ => true
  | Except.ok _ => false

/-! ## Formalized claim statements used by counterexamples -/

/-- Claim C1 as stated: whenever a candidate that was attempted yielded at
least one token and then failed mid-stream, the failure propagates as a
stream error (the run ends with an exception) and no later candidate is
tried (the failed candidate is the last one attempted). -/
def claimC1Statement (engine : Engine) (ctx q : String) (model : Option String) : Prop :=
  ∀ m ∈ (streamResponse engine ctx q model).attempted,
    failsMidStream (engine ctx q m) = true →
    behaviorTokens (engine ctx q m) ≠ [] →
    isErrorResult (streamResponse engine ctx q model).result = true ∧
    (streamResponse engine ctx q model).attempted.getLast? = some m

/-- Claim C2 as stated: for a branching turn, the streaming call behaves as a
run over the candidate list `[requested model]` when the request supplies a
model, and over the full ranked fallback list otherwise. -/
def claimC2Statement (s : InMemoryStore) (cid : Nat) (req : BranchRequest)
    (nid eid : Nat) : Prop :=
  ∀ engine : Engine,
    (branchPrepare s cid req nid eid).map (fun prep => turnRun prep engine)
      = (branchPrepare s cid req nid eid).map (fun prep =>
          runCandidates engine prep.sysContext prep.userPayload
            (match req.model with
             | some m => [m]
             | none => freeModels) none)

/-- Claim C3 as stated, for one candidate list and one engine behaviour:
candidates are attempted strictly in the given order (the attempted sequence
is an initial segment of the list), the emitted tokens are exactly those of
the first candidate that accepts (none when no candidate accepts), and the
run raises an error if and only if every candidate rejects before emitting
any token. -/
def claimC3Statement (engine : Engine) (ctx q : String) (models : List String) : Prop :=
  (∃ t, models = (runCandidates engine ctx q models none).attempted ++ t) ∧
  (runCandidates engine ctx q models none).tokens
    = (match models.find? (fun m => acceptsCall (engine ctx q m)) with
       | none => []
       | some m => behaviorTokens (engine ctx q m)) ∧
  (isErrorResult (runCandidates engine ctx q models none).result = true ↔
    ∀ m ∈ models, rejectsUpFront (engine ctx q m) = true)

/-! ## Spec-side transcript definition (section 4.2 of the spec) -/

/-- Spec-side rendering of section 4.2: the two fragments contributed by a
non-root ancestor if and only if it has both a non-empty `query` and a
non-empty `response`, nothing otherwise.  Stated from the spec's words, to be
compared with the source-derived `ancestorFragments`. -/
def specPairFragments (a : ConversationNode) : List String :=
  match a.query, a.response with
  | some q, some r =>
    if q ≠ "" ∧ r ≠ "" then ["User: " ++ q, "Assistant: " ++ r] else []
  | _, _ => []

/-! ## Ancestor chains (for `get_ancestors`) -/

/-- `ReachesRoot s n l`: `l` is the root-to-`n` ancestor path of `n` in `s` —
nonempty, ending at `n`, each element found in the store under its own id,
each element the parent of the next, starting at a node with no parent. -/
inductive ReachesRoot (s : InMemoryStore) : ConversationNode → List ConversationNode → Prop where
  | root (n : ConversationNode) (hn : s.getNode n.id = some n)
      (hp : n.parent_id = none) : ReachesRoot s n [n]
  | step (n p : ConversationNode) (l : List ConversationNode) (pid : Nat)
      (hn : s.getNode n.id = some n) (hp : n.parent_id = some pid)
      (hpn : s.getNode pid = some p) (hl : ReachesRoot s p l) :
      ReachesRoot s n (l ++ [n])

/-! ## Descendant chains (for `delete_node`) -/

/-- `DescK s k pid x`: node id `x` is reachable from `pid` by following `k`
child steps (`k ≥ 1`), i.e. `x` is a strict descendant of `pid` at depth `k`. -/
inductive DescK (s : InMemoryStore) : Nat → Nat → Nat → Prop where
  | one (pid : Nat) (n : ConversationNode) (hn : n ∈ s.nodes)
      (hp : n.parent_id = some pid) : DescK s 1 pid n.id
  | more (pid : Nat) (n : ConversationNode) (k x : Nat) (hn : n ∈ s.nodes)
      (hp : n.parent_id = some pid) (hd : DescK s k n.id x) :
      DescK s (k + 1) pid x

/-- `x` is a strict descendant of `pid` in the parent-pointer forest of `s`. -/
def IsDesc (s : InMemoryStore) (pid x : Nat) : Prop := ∃ k, DescK s k pid x

/-- The parent-pointer graph of `s` has no cycle. -/
def Acyclic (s : InMemoryStore) : Prop := ∀ x k, ¬ DescK s k x x

/-- Explicit descendant chains: `DescChainL s pid l` holds when `l` is a
nonempty list `[y₁, …, yₖ]` of node ids with `y₁` a child of `pid` and each
`yᵢ₊₁` a child of `yᵢ`. -/
inductive DescChainL (s : InMemoryStore) : Nat → List Nat → Prop where
  | one (pid : Nat) (n : ConversationNode) (hn : n ∈ s.nodes)
      (hp : n.parent_id = some pid) : DescChainL s pid [n.id]
  | more (pid : Nat) (n : ConversationNode) (l : List Nat) (hn : n ∈ s.nodes)
      (hp : n.parent_id = some pid) (hl : DescChainL s n.id l) :
      DescChainL s pid (n.id :: l)

/-- Whether `x` lies in the subtree removed by `delete_node nid`: the node
itself or a member of the computed descendant list. -/
def inDeletedSubtree (s : InMemoryStore) (nid x : Nat) : Bool :=
  x = nid || (InMemoryStore.getDescendants s s.nodes.length nid).contains x

/-- The nodes kept by `delete_node`. -/
def deleteKeepNode (s : InMemoryStore) (nid : Nat) (n : ConversationNode) : Bool :=
  !(inDeletedSubtree s nid n.id)

/-- The edges kept by `delete_node`. -/
def deleteKeepEdge (s : InMemoryStore) (nid : Nat) (e : ConversationEdge) : Bool :=
  !(inDeletedSubtree s nid e.source_node_id || inDeletedSubtree s nid e.target_node_id)

/-- Decidable check that a node's parent id, when present, is smaller than
its own id — a rank argument yielding acyclicity on concrete stores. -/
def parentBelowId (n : ConversationNode) : Bool :=
  match n.parent_id with
  | none => true
  | some p => p < n.id

/-! ## Reachable states and invariants -/

/-- One application of a public mutating operation: conversation creation,
node selection, branching (with an arbitrary engine behaviour), node
deletion, conversation deletion.  The freshness hypotheses on creation steps
model `uuid4`: a generated id differs from every id ever generated before. -/
inductive Step : InMemoryStore → InMemoryStore → Prop where
  | createConversation (s : InMemoryStore) (title ctx : String) (cid nid : Nat)
      (hc : cid ∉ s.usedIds) (hn : nid ∉ s.usedIds) (hne : cid ≠ nid) :
      Step s (createConversationApi s title ctx cid nid).1
  | selectNode (s : InMemoryStore) (cid nid : Nat) :
      Step s (selectNodeApi s cid nid).1
  | branch (s : InMemoryStore) (cid : Nat) (req : BranchRequest) (engine : Engine)
      (nid eid elapsedMs : Nat) (hn : nid ∉ s.usedIds) (he : eid ∉ s.usedIds)
      (hne : nid ≠ eid) :
      Step s (websocketStream s cid req engine nid eid elapsedMs).1
  | deleteNode (s : InMemoryStore) (nid : Nat) :
      Step s (deleteNodeApi s nid).1
  | deleteConversation (s : InMemoryStore) (cid : Nat) :
      Step s (deleteConversationApi s cid).1

/-- Store states reachable from the empty store through the public
operations. -/
inductive Reachable : InMemoryStore → Prop where
  | init : Reachable emptyStore
  | step (s s' : InMemoryStore) (h : Reachable s) (hs : Step s s') : Reachable s'

/-- Claim C6 as stated: every conversation's `active_node_id` refers to a
node that exists in the store and belongs to that conversation. -/
def ActiveExists (s : InMemoryStore) : Prop :=
  ∀ c ∈ s.conversations,
    ∃ n, s.getNode c.active_node_id = some n ∧ n.conversation_id = c.id

/-- The provable part of C6: whenever a conversation's `active_node_id`
refers to an existing node, that node belongs to the same conversation. -/
def ActiveOwned (s : InMemoryStore) : Prop :=
  ∀ c ∈ s.conversations,
    ∀ n, s.getNode c.active_node_id = some n → n.conversation_id = c.id

/-- Claim C10: every conversation's `root_node_id` refers to an existing node
of the same conversation whose `parent_id` is null. -/
def RootsWellFormed (s : InMemoryStore) : Prop :=
  ∀ c ∈ s.conversations,
    ∃ n, s.getNode c.root_node_id = some n ∧ n.conversation_id = c.id ∧
      n.parent_id = none

/-- Every id stored anywhere in the store was generated at some point
(is recorded in the ghost `usedIds`). -/
def IdsTracked (s : InMemoryStore) : Prop :=
  (∀ c ∈ s.conversations, c.id ∈ s.usedIds ∧ c.root_node_id ∈ s.usedIds ∧
    c.active_node_id ∈ s.usedIds) ∧
  (∀ n ∈ s.nodes, n.id ∈ s.usedIds ∧ ∀ p, n.parent_id = some p → p ∈ s.usedIds) ∧
  (∀ e ∈ s.edges, e.id ∈ s.usedIds ∧ e.source_node_id ∈ s.usedIds ∧
    e.target_node_id ∈ s.usedIds)

/-- The maintained store invariant: distinct dictionary keys, every stored id
tracked in `usedIds`, active nodes owned by their conversation when present,
and well-formed roots. -/
def StoreWF (s : InMemoryStore) : Prop :=
  (s.conversations.map Conversation.id).Nodup ∧
  (s.nodes.map ConversationNode.id).Nodup ∧
  (s.edges.map ConversationEdge.id).Nodup ∧
  IdsTracked s ∧ ActiveOwned s ∧ RootsWellFormed s

/-! ## Concrete inputs for witnesses and counterexamples -/

/-- An engine on which every candidate is rejected up front with HTTP 402. -/
def rejectAllEngine : Engine := fun _ _ _ => CandidateBehavior.reject 402 "quota"

/-- An engine whose first free-tier candidate accepts, emits one token and
then fails mid-stream, and whose second candidate accepts and completes. -/
def cexEngineC1 : Engine := fun _ _ m =>
  if m = "meta-llama/llama-3.3-70b-instruct:free" then
    CandidateBehavior.accept [SSELine.payload (some "Hel")] (some "connection reset")
  else if m = "meta-llama/llama-3.2-3b-instruct:free" then
    CandidateBehavior.accept [SSELine.payload (some "lo"), SSELine.doneMark] none
  else
    CandidateBehavior.reject 402 "quota"

/-- An engine for the C3 counterexample: candidate `"a"` accepts, emits one
token, then fails mid-stream; candidate `"b"` accepts and completes. -/
def cexEngineC3 : Engine := fun _ _ m =>
  if m = "a" then
    CandidateBehavior.accept [SSELine.payload (some "t1")] (some "boom")
  else if m = "b" then
    CandidateBehavior.accept [SSELine.payload (some "t2"), SSELine.doneMark] none
  else
    CandidateBehavior.reject 500 "x"

/-- An engine where `"a"` rejects up front and `"b"` accepts and completes
with two tokens. -/
def wEngineC3 : Engine := fun _ _ m =>
  if m = "b" then
    CandidateBehavior.accept
      [SSELine.payload (some "Hel"), SSELine.skipped, SSELine.payload (some "lo"),
       SSELine.doneMark] none
  else
    CandidateBehavior.reject 402 "quota"

/-- A small demonstration store: one conversation (id 1) whose root node
(id 2) has a child (id 3), plus the connecting edge (id 4). -/
def wStore : InMemoryStore :=
  { conversations := [{ id := 1, title := "T", root_node_id := 2, active_node_id := 3 }],
    nodes :=
      [{ id := 2, conversation_id := 1, parent_id := none, context := "C",
         response := none, query := none, model := none, latency_ms := none },
       { id := 3, conversation_id := 1, parent_id := some 2, context := "C2",
         response := some "Hello", query := some "Hi", model := none,
         latency_ms := none }],
    edges := [{ id := 4, source_node_id := 2, target_node_id := 3, query_text := "Hi" }],
    usedIds := [1, 2, 3, 4] }

/-- A branch request supplying an explicit model, for the C2 counterexample. -/
def wReqModel : BranchRequest :=
  { query := "Hi", model := some "my-model", parent_node_id := none }

/-- A branch request without an explicit model. -/
def wReq : BranchRequest := { query := "Hi", model := none, parent_node_id := none }

/-- A four-node store for the C8 witness: root 1 with children 2 and 4,
node 3 below 2; edges 10 : 1→2, 11 : 2→3, 12 : 1→4. -/
def wStore8 : InMemoryStore :=
  { conversations := [{ id := 20, title := "T", root_node_id := 1, active_node_id := 1 }],
    nodes :=
      [{ id := 1, conversation_id := 20, parent_id := none, context := "C",
         response := none, query := none, model := none, latency_ms := none },
       { id := 2, conversation_id := 20, parent_id := some 1, context := "C",
         response := some "r1", query := some "q1", model := none, latency_ms := none },
       { id := 3, conversation_id := 20, parent_id := some 2, context := "C",
         response := some "r2", query := some "q2", model := none, latency_ms := none },
       { id := 4, conversation_id := 20, parent_id := some 1, context := "C",
         response := some "r3", query := some "q3", model := none, latency_ms := none }],
    edges :=
      [{ id := 10, source_node_id := 1, target_node_id := 2, query_text := "q1" },
       { id := 11, source_node_id := 2, target_node_id := 3, query_text := "q2" },
       { id := 12, source_node_id := 1, target_node_id := 4, query_text := "q3" }],
    usedIds := [20, 1, 2, 3, 4, 10, 11, 12] }

/-- The reachable store of the C6 counterexample: create a conversation
(ids 1, 2), branch once (node 3, edge 4 — every candidate rejected, so the
node keeps its empty response), then delete node 3 through the node-deletion
endpoint.  The conversation's `active_node_id` still names the deleted
node 3. -/
def c6Store : InMemoryStore :=
  (deleteNodeApi
    (websocketStream (createConversationApi emptyStore "T" "C" 1 2).1 1 wReq
      rejectAllEngine 3 4 0).1 3).1

/-- The prepared turn produced by `branchPrepare wStore 1 wReq 5 6`, written
out explicitly (used to discharge witness hypotheses). -/
def wPrep : PreparedTurn :=
  { store :=
      { conversations := [{ id := 1, title := "T", root_node_id := 2, active_node_id := 5 }],
        nodes :=
          [{ id := 2, conversation_id := 1, parent_id := none, context := "C",
             response := none, query := none, model := none, latency_ms := none },
           { id := 3, conversation_id := 1, parent_id := some 2, context := "C2",
             response := some "Hello", query := some "Hi", model := none,
             latency_ms := none },
           { id := 5, conversation_id := 1, parent_id := some 3,
             context := "C\n\nUser: Hi\n\nAssistant: Hello\n\nUser: Hi",
             response := some "", query := some "Hi", model := none,
             latency_ms := none }],
        edges :=
          [{ id := 4, source_node_id := 2, target_node_id := 3, query_text := "Hi" },
           { id := 6, source_node_id := 3, target_node_id := 5, query_text := "Hi" }],
        usedIds := [1, 2, 3, 4, 5, 6] },
    parentId := 3,
    newNode :=
      { id := 5, conversation_id := 1, parent_id := some 3,
        context := "C\n\nUser: Hi\n\nAssistant: Hello\n\nUser: Hi",
        response := some "", query := some "Hi", model := none, latency_ms := none },
    sysContext := "C",
    userPayload := "User: Hi\nAssistant: Hello\nUser: Hi\n\nUser: Hi" }

/-! # Theorems -/

/-! ## Keyed-list (dictionary) helper lemmas -/

theorem find?_key_unique {α} (key : α → Nat) :
    ∀ (l : List α), (l.map key).Nodup → ∀ x ∈ l,
      l.find? (fun y => key y = key x) = some x := by
  intro l
  induction l with
  | nil => intro _ x hx; cases hx
  | cons a l ih =>
    intro hnd x hx
    simp only [List.map_cons, List.nodup_cons] at hnd
    rcases List.mem_cons.mp hx with heq | hmem
    · subst heq
      exact List.find?_cons_of_pos _ (by simp)
    · have hne : key a ≠ key x := by
        intro h
        exact hnd.1 (h ▸ List.mem_map_of_mem key hmem)
      rw [List.find?_cons_of_neg _ (by simp [hne])]
      exact ih hnd.2 x hmem

theorem find?_key_none {α} (key : α → Nat) (l : List α) (k : Nat)
    (h : ∀ y ∈ l, key y ≠ k) : l.find? (fun y => key y = k) = none := by
  rw [List.find?_eq_none]
  intro x hx
  simp [h x hx]

theorem dictInsertBy_fresh {α} (key : α → Nat) (l : List α) (x : α)
    (h : ∀ y ∈ l, key y ≠ key x) : dictInsertBy key l x = l ++ [x] := by
  unfold dictInsertBy
  rw [if_neg]
  intro hc
  rcases List.any_eq_true.mp hc with ⟨y, hy, hky⟩
  exact h y hy (of_decide_eq_true hky)

theorem find?_map_keyed {α} (key : α → Nat) (f : α → α) (k : Nat)
    (hf : ∀ y, key (f y) = key y) :
    ∀ l : List α, (l.map f).find? (fun y => key y = k)
      = (l.find? (fun y => key y = k)).map f := by
  intro l
  induction l with
  | nil => rfl
  | cons a l ih =>
    by_cases hk : key a = k
    · simp only [List.map_cons]
      rw [List.find?_cons_of_pos _ (by simp [hf, hk]),
        List.find?_cons_of_pos _ (by simp [hk])]
      rfl
    · simp only [List.map_cons]
      rw [List.find?_cons_of_neg _ (by simp [hf, hk]),
        List.find?_cons_of_neg _ (by simp [hk])]
      exact ih

theorem find?_filter_key {α} (key : α → Nat) (l : List α) (p : α → Bool) (k : Nat)
    (hnd : (l.map key).Nodup) {x : α}
    (hx : (l.filter p).find? (fun y => key y = k) = some x) :
    l.find? (fun y => key y = k) = some x := by
  have hmem : x ∈ l.filter p := List.mem_of_find?_eq_some hx
  have hkb := @List.find?_some _ (fun y => decide (key y = k)) x _ hx
  have hkx : key x = k := of_decide_eq_true hkb
  have hxl : x ∈ l := List.mem_of_mem_filter hmem
  have := find?_key_unique key l hnd x hxl
  rwa [hkx] at this

theorem find?_filter_key_of_keep {α} (key : α → Nat) (l : List α) (p : α → Bool)
    (hnd : (l.map key).Nodup) {x : α} (hx : x ∈ l) (hp : p x = true) :
    (l.filter p).find? (fun y => key y = key x) = some x := by
  have hsub : ((l.filter p).map key).Sublist (l.map key) :=
    (List.filter_sublist l).map key
  exact find?_key_unique key (l.filter p) (hnd.sublist hsub) x
    (List.mem_filter.mpr ⟨hx, hp⟩)


/-! ## Streaming fallback lemmas -/

theorem runCandidates_attempted_init (engine : Engine) (ctx q : String) :
    ∀ (models : List String) (lastErr : Option String),
      ∃ t, models = (runCandidates engine ctx q models lastErr).attempted ++ t := by
  intro models
  induction models with
  | nil => intro lastErr; exact ⟨[], rfl⟩
  | cons m rest ih =>
    intro lastErr
    cases hb : engine ctx q m with
    | reject status body =>
      obtain ⟨t, ht⟩ := ih (some ("HTTP " ++ toString status ++ ": " ++ body))
      refine ⟨t, ?_⟩
      simp only [runCandidates, hb]
      exact congrArg (m :: ·) ht
    | connectError e =>
      obtain ⟨t, ht⟩ := ih (some e)
      refine ⟨t, ?_⟩
      simp only [runCandidates, hb]
      exact congrArg (m :: ·) ht
    | accept lines midError =>
      by_cases hp : (processLines lines).2 = true
      · refine ⟨rest, ?_⟩
        simp [runCandidates, hb, hp]
      · cases midError with
        | none =>
          refine ⟨rest, ?_⟩
          simp [runCandidates, hb, hp]
        | some e =>
          obtain ⟨t, ht⟩ := ih (some e)
          refine ⟨t, ?_⟩
          simp only [runCandidates, hb, if_neg hp]
          exact congrArg (m :: ·) ht

theorem runCandidates_error_attempted (engine : Engine) (ctx q : String) :
    ∀ (models : List String) (lastErr : Option String),
      isErrorResult (runCandidates engine ctx q models lastErr).result = true →
      (runCandidates engine ctx q models lastErr).attempted = models := by
  intro models
  induction models with
  | nil => intro _ _; rfl
  | cons m rest ih =>
    intro lastErr herr
    cases hb : engine ctx q m with
    | reject status body =>
      simp only [runCandidates, hb] at herr ⊢
      exact congrArg (m :: ·) (ih _ herr)
    | connectError e =>
      simp only [runCandidates, hb] at herr ⊢
      exact congrArg (m :: ·) (ih _ herr)
    | accept lines midError =>
      by_cases hp : (processLines lines).2 = true
      · simp [runCandidates, hb, hp, isErrorResult] at herr
      · cases midError with
        | none => simp [runCandidates, hb, hp, isErrorResult] at herr
        | some e =>
          simp only [runCandidates, hb, if_neg hp] at herr ⊢
          exact congrArg (m :: ·) (ih _ herr)

theorem runCandidates_all_reject (engine : Engine) (ctx q : String) :
    ∀ (models : List String) (lastErr : Option String),
      (∀ m ∈ models, rejectsUpFront (engine ctx q m) = true) →
      ∃ msg, runCandidates engine ctx q models lastErr
        = ⟨models, [], Except.error msg⟩ := by
  intro models
  induction models with
  | nil => intro lastErr _; exact ⟨allFailedMsg lastErr, rfl⟩
  | cons m rest ih =>
    intro lastErr hall
    have hm := hall m (List.mem_cons_self m rest)
    cases hb : engine ctx q m with
    | reject status body =>
      obtain ⟨msg, hmsg⟩ := ih (some ("HTTP " ++ toString status ++ ": " ++ body))
        (fun x hx => hall x (List.mem_cons_of_mem m hx))
      exact ⟨msg, by simp [runCandidates, hb, hmsg]⟩
    | connectError e =>
      obtain ⟨msg, hmsg⟩ := ih (some e)
        (fun x hx => hall x (List.mem_cons_of_mem m hx))
      exact ⟨msg, by simp [runCandidates, hb, hmsg]⟩
    | accept lines midError =>
      rw [hb] at hm
      simp [rejectsUpFront] at hm

theorem runCandidates_no_midfail (engine : Engine) (ctx q : String) :
    ∀ (models : List String) (lastErr : Option String),
      (∀ m ∈ models, failsMidStream (engine ctx q m) = false) →
      (runCandidates engine ctx q models lastErr).tokens
        = (match models.find? (fun m => acceptsCall (engine ctx q m)) with
           | none => []
           | some m => behaviorTokens (engine ctx q m)) ∧
      (isErrorResult (runCandidates engine ctx q models lastErr).result = true ↔
        ∀ m ∈ models, rejectsUpFront (engine ctx q m) = true) := by
  intro models
  induction models with
  | nil =>
    intro lastErr _
    exact ⟨rfl, by simp [runCandidates, isErrorResult]⟩
  | cons m rest ih =>
    intro lastErr hall
    have hm := hall m (List.mem_cons_self m rest)
    have hrest := fun x hx => hall x (List.mem_cons_of_mem m hx)
    cases hb : engine ctx q m with
    | reject status body =>
      have hacc : acceptsCall (engine ctx q m) = false := by
        simp [acceptsCall, rejectsUpFront, hb]
      obtain ⟨h1, h2⟩ := ih (some ("HTTP " ++ toString status ++ ": " ++ body)) hrest
      refine ⟨?_, ?_⟩
      · simp only [runCandidates, hb]
        rw [List.find?_cons_of_neg _ (by simp [hacc])]
        exact h1
      · simp only [runCandidates, hb]
        rw [h2]
        constructor
        · intro hr x hx
          rcases List.mem_cons.mp hx with rfl | hx'
          · simp [rejectsUpFront, hb]
          · exact hr x hx'
        · intro hr x hx
          exact hr x (List.mem_cons_of_mem m hx)
    | connectError e =>
      have hacc : acceptsCall (engine ctx q m) = false := by
        simp [acceptsCall, rejectsUpFront, hb]
      obtain ⟨h1, h2⟩ := ih (some e) hrest
      refine ⟨?_, ?_⟩
      · simp only [runCandidates, hb]
        rw [List.find?_cons_of_neg _ (by simp [hacc])]
        exact h1
      · simp only [runCandidates, hb]
        rw [h2]
        constructor
        · intro hr x hx
          rcases List.mem_cons.mp hx with rfl | hx'
          · simp [rejectsUpFront, hb]
          · exact hr x hx'
        · intro hr x hx
          exact hr x (List.mem_cons_of_mem m hx)
    | accept lines midError =>
      have hacc : acceptsCall (engine ctx q m) = true := by
        simp [acceptsCall, rejectsUpFront, hb]
      have hfind : (m :: rest).find? (fun x => acceptsCall (engine ctx q x)) = some m :=
        List.find?_cons_of_pos _ (by simp [hacc])
      have hok : runCandidates engine ctx q (m :: rest) lastErr
          = ⟨[m], (processLines lines).1, Except.ok ()⟩ := by
        by_cases hp : (processLines lines).2 = true
        · simp [runCandidates, hb, hp]
        · cases midError with
          | none => simp [runCandidates, hb, hp]
          | some e =>
            rw [hb] at hm
            simp [failsMidStream, hp] at hm
      refine ⟨?_, ?_⟩
      · rw [hok, hfind]
        simp [behaviorTokens, hb]
      · rw [hok]
        simp only [isErrorResult]
        constructor
        · intro hc; cases hc
        · intro hr
          have := hr m (List.mem_cons_self m rest)
          rw [hb] at this
          simp [rejectsUpFront] at this

/-! ## Claim C1 -/

/-- C1 counterexample: with the first free-tier candidate accepting, emitting
the token `"Hel"` and then failing mid-stream, and the second candidate
accepting and completing, the orchestrator does fall back to the second
candidate and the run ends successfully — the claim that a mid-stream
failure after emitted tokens propagates as a stream error without trying the
next candidate is false. -/
theorem c1_counterexample : ¬ claimC1Statement cexEngineC1 "ctx" "q" none := by
  intro h
  have h2 := h "meta-llama/llama-3.3-70b-instruct:free" (by decide) (by decide) (by decide)
  exact absurd h2.2 (by decide)

/-- C1 (amended): when a candidate is accepted, emits its tokens and then
fails mid-stream, `stream_response` records the error and continues the
fallback with the remaining candidates exactly as a fresh run (so the next
candidate in the list is tried); the mid-stream failure is surfaced as a
stream error only when no candidates remain, via the exhaustion exception
carrying that error. -/
theorem c1_midstream_fallback (engine : Engine) (ctx q m : String)
    (rest : List String) (lastErr : Option String) (lines : List SSELine) (e : String)
    (hb : engine ctx q m = CandidateBehavior.accept lines (some e))
    (hnd : (processLines lines).2 = false) :
    (runCandidates engine ctx q (m :: rest) lastErr).attempted
      = m :: (runCandidates engine ctx q rest (some e)).attempted ∧
    (runCandidates engine ctx q (m :: rest) lastErr).tokens
      = (processLines lines).1 ++ (runCandidates engine ctx q rest (some e)).tokens ∧
    (runCandidates engine ctx q (m :: rest) lastErr).result
      = (runCandidates engine ctx q rest (some e)).result ∧
    (rest = [] → (runCandidates engine ctx q (m :: rest) lastErr).result
      = Except.error ("All models failed. Last error: " ++ e)) := by
  have hrun : runCandidates engine ctx q (m :: rest) lastErr
      = ⟨m :: (runCandidates engine ctx q rest (some e)).attempted,
         (processLines lines).1 ++ (runCandidates engine ctx q rest (some e)).tokens,
         (runCandidates engine ctx q rest (some e)).result⟩ := by
    simp [runCandidates, hb, hnd]
  refine ⟨by rw [hrun], by rw [hrun], by rw [hrun], ?_⟩
  intro hr
  subst hr
  rw [hrun]
  rfl

/-- Witness for `c1_midstream_fallback` at a concrete engine: the first
free-tier model emits `"Hel"` and dies; the run continues with the second
model. -/
theorem c1_midstream_fallback_witness :
    (runCandidates cexEngineC1 "ctx" "q"
        ["meta-llama/llama-3.3-70b-instruct:free",
         "meta-llama/llama-3.2-3b-instruct:free"] none).attempted
      = "meta-llama/llama-3.3-70b-instruct:free" ::
        (runCandidates cexEngineC1 "ctx" "q"
          ["meta-llama/llama-3.2-3b-instruct:free"] (some "connection reset")).attempted ∧
    (runCandidates cexEngineC1 "ctx" "q"
        ["meta-llama/llama-3.3-70b-instruct:free",
         "meta-llama/llama-3.2-3b-instruct:free"] none).tokens
      = (processLines [SSELine.payload (some "Hel")]).1 ++
        (runCandidates cexEngineC1 "ctx" "q"
          ["meta-llama/llama-3.2-3b-instruct:free"] (some "connection reset")).tokens ∧
    (runCandidates cexEngineC1 "ctx" "q"
        ["meta-llama/llama-3.3-70b-instruct:free",
         "meta-llama/llama-3.2-3b-instruct:free"] none).result
      = (runCandidates cexEngineC1 "ctx" "q"
          ["meta-llama/llama-3.2-3b-instruct:free"] (some "connection reset")).result ∧
    (["meta-llama/llama-3.2-3b-instruct:free"] = ([] : List String) →
      (runCandidates cexEngineC1 "ctx" "q"
        ["meta-llama/llama-3.3-70b-instruct:free",
         "meta-llama/llama-3.2-3b-instruct:free"] none).result
        = Except.error ("All models failed. Last error: " ++ "connection reset")) :=
  c1_midstream_fallback cexEngineC1 "ctx" "q" "meta-llama/llama-3.3-70b-instruct:free"
    ["meta-llama/llama-3.2-3b-instruct:free"] none [SSELine.payload (some "Hel")]
    "connection reset" (by decide) (by decide)

/-! ## Claim C2 -/

/-- C2 counterexample: at a concrete store, a branch request that supplies
the model `"my-model"`, and an engine rejecting everything, the streaming
call does not behave as a run over the one-element candidate list
`["my-model"]` — the `websocket_stream` call site passes `model=None`, so
the engine is offered the full free-model fallback list instead. -/
theorem c2_counterexample : ¬ claimC2Statement wStore 1 wReqModel 5 6 := by
  intro h
  have h2 := h rejectAllEngine
  exact absurd h2 (by decide)

/-- C2 (amended): for every branching turn that reaches streaming, the
candidate list handed to the completion engine is always the orchestrator's
full ranked fallback list, regardless of whether the request supplied a
model — the call site hard-codes `model=None`.  Consequently a failing run
attempted exactly the free models, any run attempts an initial segment of
them, and changing the requested model changes neither the prompt nor the
streaming behaviour (it is only recorded on the stored node). -/
theorem c2_fallback_list_always (s : InMemoryStore) (cid : Nat)
    (req : BranchRequest) (nid eid : Nat) (prep : PreparedTurn) (engine : Engine)
    (hok : branchPrepare s cid req nid eid = Except.ok prep) :
    turnRun prep engine
      = runCandidates engine prep.sysContext prep.userPayload freeModels none ∧
    (isErrorResult (turnRun prep engine).result = true →
      (turnRun prep engine).attempted = freeModels) ∧
    (∃ t, freeModels = (turnRun prep engine).attempted ++ t) ∧
    (∀ m' : Option String, ∃ prep',
      branchPrepare s cid { req with model := m' } nid eid = Except.ok prep' ∧
      prep'.sysContext = prep.sysContext ∧ prep'.userPayload = prep.userPayload ∧
      turnRun prep' engine = turnRun prep engine) := by
  have hfree : modelsToTry none freeModels = freeModels := by
    simp [modelsToTry, pyTruthy]
  have h1 : turnRun prep engine
      = runCandidates engine prep.sysContext prep.userPayload freeModels none := by
    simp [turnRun, streamResponse, hfree]
  refine ⟨h1, ?_, ?_, ?_⟩
  · intro herr
    rw [h1] at herr ⊢
    exact runCandidates_error_attempted engine prep.sysContext prep.userPayload
      freeModels none herr
  · rw [h1]
    exact runCandidates_attempted_init engine prep.sysContext prep.userPayload
      freeModels none
  · intro m'
    simp only [branchPrepare] at hok ⊢
    split at hok
    · exact Except.noConfusion hok
    next conversation hconv =>
      split at hok
      · exact Except.noConfusion hok
      next parent hpar =>
        injection hok with hok
        refine ⟨_, rfl, ?_, ?_, ?_⟩
        · rw [← hok]
        · rw [← hok]
        · rw [← hok]
          rfl

/-- Witness for `c2_fallback_list_always` at the demonstration store. -/
theorem c2_fallback_list_always_witness :
    turnRun wPrep rejectAllEngine
      = runCandidates rejectAllEngine wPrep.sysContext wPrep.userPayload freeModels none ∧
    (isErrorResult (turnRun wPrep rejectAllEngine).result = true →
      (turnRun wPrep rejectAllEngine).attempted = freeModels) ∧
    (∃ t, freeModels = (turnRun wPrep rejectAllEngine).attempted ++ t) ∧
    (∀ m' : Option String, ∃ prep',
      branchPrepare wStore 1 { wReq with model := m' } 5 6 = Except.ok prep' ∧
      prep'.sysContext = wPrep.sysContext ∧ prep'.userPayload = wPrep.userPayload ∧
      turnRun prep' rejectAllEngine = turnRun wPrep rejectAllEngine) :=
  c2_fallback_list_always wStore 1 wReq 5 6 wPrep rejectAllEngine (by decide)

/-! ## Claim C3 -/

/-- C3 counterexample: on the candidate list `["a", "b"]` where `"a"`
accepts, emits the token `"t1"` and then fails mid-stream while `"b"`
accepts and completes with the token `"t2"`, the emitted tokens are
`["t1", "t2"]` — not only tokens of the first accepting candidate — so the
claim is false for this candidate list and engine behaviour. -/
theorem c3_counterexample : ¬ claimC3Statement cexEngineC3 "c" "q" ["a", "b"] := by
  intro h
  exact absurd h.2.1 (by decide)

/-- C3 (amended): in every execution in which no candidate fails mid-stream
(each candidate either rejects up front or accepts and completes), the
fallback attempts candidates strictly in the given order, emits exactly the
tokens of the first accepting candidate (none when every candidate
rejects), and raises the exhaustion error if and only if every candidate
rejects before emitting any token.  Mid-stream failures void the
only-first-candidate part, as `c3_counterexample` shows. -/
theorem c3_ordered_fallback (engine : Engine) (ctx q : String)
    (models : List String)
    (h : ∀ m ∈ models, failsMidStream (engine ctx q m) = false) :
    claimC3Statement engine ctx q models := by
  obtain ⟨h1, h2⟩ := runCandidates_no_midfail engine ctx q models none h
  exact ⟨runCandidates_attempted_init engine ctx q models none, h1, h2⟩

/-- Witness for `c3_ordered_fallback`: candidate `"a"` rejects up front,
candidate `"b"` accepts and completes. -/
theorem c3_ordered_fallback_witness : claimC3Statement wEngineC3 "c" "q" ["a", "b"] :=
  c3_ordered_fallback wEngineC3 "c" "q" ["a", "b"] (by decide)

/-! ## Claim C5 -/

theorem ancestorFragments_eq_spec : ancestorFragments = specPairFragments := by
  funext a
  unfold ancestorFragments specPairFragments pyTruthy
  cases hq : a.query with
  | none => simp
  | some q =>
    cases hr : a.response with
    | none => simp
    | some r =>
      by_cases hqe : q = ""
      · subst hqe
        simp [show "".isEmpty = true from rfl]
      · by_cases hre : r = ""
        · subst hre; simp [String.isEmpty_iff, hqe]
        · simp [String.isEmpty_iff, hqe, hre]

/-- C5: the built context is the root ancestor's context, followed by the
qualifying `User:`/`Assistant:` pairs of the remaining ancestors in
root-to-leaf order, followed by `User:` plus the new query; a non-root
ancestor contributes its pair if and only if it has both a non-empty query
and a non-empty response, and contributes nothing otherwise — in particular
an ancestor with a query but no response contributes nothing. -/
theorem c5_transcript (root : ConversationNode) (rest : List ConversationNode)
    (q : String) :
    buildContextParts (root :: rest) q
      = root.context :: (rest.flatMap specPairFragments ++ ["User: " ++ q]) ∧
    (∀ a : ConversationNode,
      specPairFragments a
        = if (∃ qs, a.query = some qs ∧ qs ≠ "") ∧ (∃ rs, a.response = some rs ∧ rs ≠ "")
          then ["User: " ++ a.query.getD "", "Assistant: " ++ a.response.getD ""]
          else []) ∧
    (∀ a : ConversationNode, a.response = none → ancestorFragments a = []) := by
  refine ⟨?_, ?_, ?_⟩
  · show root.context :: (rest.flatMap ancestorFragments ++ ["User: " ++ q])
      = root.context :: (rest.flatMap specPairFragments ++ ["User: " ++ q])
    rw [ancestorFragments_eq_spec]
  · intro a
    unfold specPairFragments
    cases hq : a.query with
    | none => simp
    | some qs =>
      cases hr : a.response with
      | none => simp
      | some rs =>
        by_cases hqe : qs = ""
        · simp [hqe]
        · by_cases hre : rs = ""
          · simp [hqe, hre]
          · simp [hqe, hre]
  · intro a hr
    unfold ancestorFragments
    simp [pyTruthy, hr]

/-! ## Claim C9 -/

/-- C9: deleting a node whose `parent_id` is null is rejected with HTTP 400
(`Cannot delete root node`), regardless of its descendants, and the store is
returned unchanged. -/
theorem c9_root_delete_rejected (s : InMemoryStore) (nid : Nat)
    (node : ConversationNode) (hn : s.getNode nid = some node)
    (hroot : node.parent_id = none) :
    deleteNodeApi s nid =
      (s, Except.error ⟨400, "Cannot delete root node. Delete the conversation instead."⟩) := by
  unfold deleteNodeApi
  rw [hn]
  simp [hroot]

/-- Witness for `c9_root_delete_rejected`: the root node (id 2) of the
demonstration store, which has a descendant, is rejected and the store is
untouched. -/
theorem c9_root_delete_rejected_witness :
    deleteNodeApi wStore 2 =
      (wStore, Except.error ⟨400, "Cannot delete root node. Delete the conversation instead."⟩) :=
  c9_root_delete_rejected wStore 2
    { id := 2, conversation_id := 1, parent_id := none, context := "C",
      response := none, query := none, model := none, latency_ms := none }
    (by decide) rfl

/-! ## Claim C7: ancestor paths -/

theorem reachesRoot_lookup (s : InMemoryStore) :
    ∀ {n : ConversationNode} {l : List ConversationNode}, ReachesRoot s n l →
      ∀ x ∈ l, s.getNode x.id = some x := by
  intro n l h
  induction h with
  | root m hn _ =>
    intro x hx
    rw [List.mem_singleton] at hx
    subst hx
    exact hn
  | step m p l pid hn hp hpn hl ih =>
    intro x hx
    rcases List.mem_append.mp hx with h1 | h1
    · exact ih x h1
    · rw [List.mem_singleton] at h1
      subst h1
      exact hn

theorem reachesRoot_mem (s : InMemoryStore) {n : ConversationNode}
    {l : List ConversationNode} (h : ReachesRoot s n l) :
    ∀ x ∈ l, x ∈ s.nodes :=
  fun x hx => List.mem_of_find?_eq_some (reachesRoot_lookup s h x hx)

theorem reachesRoot_unique (s : InMemoryStore) :
    ∀ {n : ConversationNode} {l l' : List ConversationNode},
      ReachesRoot s n l → ReachesRoot s n l' → l = l' := by
  intro n l l' h1
  induction h1 generalizing l' with
  | root m hn hp =>
    intro h2
    cases h2 with
    | root _ _ => rfl
    | step _ p2 l2 pid2 hn2 hp2 hpn2 hl2 =>
      rw [hp] at hp2
      cases hp2
  | step m p l pid hn hp hpn hl ih =>
    intro h2
    cases h2 with
    | root _ _ hp2 =>
      rw [hp] at hp2
      cases hp2
    | step _ p2 l2 pid2 hn2 hp2 hpn2 hl2 =>
      rw [hp] at hp2
      injection hp2 with hpid
      subst hpid
      rw [hpn] at hpn2
      injection hpn2 with hpeq
      subst hpeq
      rw [ih hl2]

theorem reachesRoot_front (s : InMemoryStore) :
    ∀ {n : ConversationNode} {l : List ConversationNode}, ReachesRoot s n l →
      ∀ x ∈ l, ∃ l₁ t, ReachesRoot s x l₁ ∧ l = l₁ ++ t := by
  intro n l h
  induction h with
  | root m hn hp =>
    intro x hx
    rw [List.mem_singleton] at hx
    subst hx
    exact ⟨[x], [], ReachesRoot.root x hn hp, rfl⟩
  | step m p l pid hn hp hpn hl ih =>
    intro x hx
    rcases List.mem_append.mp hx with h1 | h1
    · obtain ⟨l₁, t, hc, he⟩ := ih x h1
      refine ⟨l₁, t ++ [m], hc, ?_⟩
      rw [he, List.append_assoc]
    · rw [List.mem_singleton] at h1
      subst h1
      exact ⟨l ++ [x], [], ReachesRoot.step x p l pid hn hp hpn hl, by simp⟩

theorem reachesRoot_nodup (s : InMemoryStore) :
    ∀ {n : ConversationNode} {l : List ConversationNode},
      ReachesRoot s n l → l.Nodup := by
  intro n l h
  induction h with
  | root m _ _ => simp
  | step m p l pid hn hp hpn hl ih =>
    have hnot : m ∉ l := by
      intro hmem
      obtain ⟨l₁, t, hc, he⟩ := reachesRoot_front s hl m hmem
      have huniq := reachesRoot_unique s hc (ReachesRoot.step m p l pid hn hp hpn hl)
      rw [huniq] at he
      have hlen := congrArg List.length he
      simp only [List.length_append, List.length_singleton] at hlen
      omega
    rw [List.nodup_append]
    exact ⟨ih, List.nodup_singleton _,
      fun a ha hb => hnot ((List.mem_singleton.mp hb) ▸ ha)⟩

theorem reachesRoot_length_le (s : InMemoryStore) {n : ConversationNode}
    {l : List ConversationNode} (h : ReachesRoot s n l) :
    l.length ≤ s.nodes.length := by
  have hinj : ∀ x ∈ l, ∀ y ∈ l, x.id = y.id → x = y := by
    intro x hx y hy hxy
    have h1 := reachesRoot_lookup s h x hx
    have h2 := reachesRoot_lookup s h y hy
    rw [hxy] at h1
    have h3 : some x = some y := h1.symm.trans h2
    exact Option.some.inj h3
  have hnd : (l.map ConversationNode.id).Nodup :=
    (reachesRoot_nodup s h).map_on hinj
  have hsub : l.map ConversationNode.id ⊆ s.nodes.map ConversationNode.id := by
    intro i hi
    rcases List.mem_map.mp hi with ⟨x, hx, rfl⟩
    exact List.mem_map_of_mem _ (reachesRoot_mem s h x hx)
  have hle := (List.subperm_of_subset hnd hsub).length_le
  simpa using hle

theorem getAncestorsAux_chain (s : InMemoryStore) :
    ∀ {n : ConversationNode} {l : List ConversationNode}, ReachesRoot s n l →
      ∀ (fuel : Nat), l.length ≤ fuel → ∀ acc,
        InMemoryStore.getAncestorsAux s fuel (some n) acc = l ++ acc := by
  intro n l h
  induction h with
  | root m hn hp =>
    intro fuel hf acc
    cases fuel with
    | zero => simp at hf
    | succ f => simp [InMemoryStore.getAncestorsAux, hp]
  | step m p l pid hn hp hpn hl ih =>
    intro fuel hf acc
    cases fuel with
    | zero => simp at hf
    | succ f =>
      have hlen : l.length ≤ f := by
        rw [List.length_append] at hf
        simp at hf
        omega
      simp only [InMemoryStore.getAncestorsAux, hp, hpn]
      rw [ih f hlen (m :: acc)]
      simp

/-- C7: for every node id, the ancestors endpoint fails with 404 when the id
is unknown, and otherwise `get_ancestors` returns exactly the root-to-node
ancestor path — starting at a node with null `parent_id`, following parent
links, ending at the requested node — with no repeated node. -/
theorem c7_ancestor_path (s : InMemoryStore) (nid : Nat) :
    (s.getNode nid = none →
      getAncestorsApi s nid = Except.error ⟨404, "Node not found"⟩) ∧
    (∀ (n : ConversationNode) (l : List ConversationNode),
      s.getNode nid = some n → ReachesRoot s n l →
      s.getAncestors nid = l ∧ l.Nodup ∧ getAncestorsApi s nid = Except.ok l) := by
  constructor
  · intro hn
    unfold getAncestorsApi
    rw [hn]
  · intro n l hn hchain
    have hga : s.getAncestors nid = l := by
      unfold InMemoryStore.getAncestors
      rw [hn]
      have hlen : l.length ≤ s.nodes.length + 1 :=
        Nat.le_succ_of_le (reachesRoot_length_le s hchain)
      rw [getAncestorsAux_chain s hchain (s.nodes.length + 1) hlen []]
      simp
    refine ⟨hga, reachesRoot_nodup s hchain, ?_⟩
    unfold getAncestorsApi
    rw [hn, hga]

/-- Witness for `c7_ancestor_path` on the demonstration store: node 3 has the
ancestor path root 2, node 3; an unknown id 99 yields a 404. -/
theorem c7_ancestor_path_witness :
    getAncestorsApi wStore 99 = Except.error ⟨404, "Node not found"⟩ ∧
    wStore.getAncestors 3 =
      [{ id := 2, conversation_id := 1, parent_id := none, context := "C",
         response := none, query := none, model := none, latency_ms := none },
       { id := 3, conversation_id := 1, parent_id := some 2, context := "C2",
         response := some "Hello", query := some "Hi", model := none,
         latency_ms := none }] := by
  constructor
  · exact (c7_ancestor_path wStore 99).1 (by decide)
  · have hchain : ReachesRoot wStore
        { id := 3, conversation_id := 1, parent_id := some 2, context := "C2",
          response := some "Hello", query := some "Hi", model := none,
          latency_ms := none }
        ([{ id := 2, conversation_id := 1, parent_id := none, context := "C",
            response := none, query := none, model := none, latency_ms := none }] ++
         [{ id := 3, conversation_id := 1, parent_id := some 2, context := "C2",
            response := some "Hello", query := some "Hi", model := none,
            latency_ms := none }]) :=
      ReachesRoot.step _ _ _ 2 (by decide) rfl (by decide)
        (ReachesRoot.root _ (by decide) rfl)
    exact ((c7_ancestor_path wStore 3).2 _ _ (by decide) hchain).1

/-! ## Claim C8: cascading node deletion -/

theorem descK_pos (s : InMemoryStore) :
    ∀ {k pid x : Nat}, DescK s k pid x → 1 ≤ k := by
  intro k pid x h
  cases h <;> omega

theorem mem_childIdsOf (s : InMemoryStore) (pid x : Nat) :
    x ∈ InMemoryStore.childIdsOf s pid ↔
      ∃ n, n ∈ s.nodes ∧ n.parent_id = some pid ∧ n.id = x := by
  unfold InMemoryStore.childIdsOf
  constructor
  · intro hx
    rcases List.mem_map.mp hx with ⟨n, hn, rfl⟩
    rcases List.mem_filter.mp hn with ⟨hmem, hp⟩
    exact ⟨n, hmem, of_decide_eq_true hp, rfl⟩
  · rintro ⟨n, hmem, hp, rfl⟩
    exact List.mem_map_of_mem _ (List.mem_filter.mpr ⟨hmem, decide_eq_true hp⟩)

theorem mem_getDescendants_iff (s : InMemoryStore) :
    ∀ (fuel pid x : Nat),
      x ∈ InMemoryStore.getDescendants s fuel pid ↔
        ∃ k, 1 ≤ k ∧ k ≤ fuel ∧ DescK s k pid x := by
  intro fuel
  induction fuel with
  | zero =>
    intro pid x
    simp only [InMemoryStore.getDescendants, List.not_mem_nil, false_iff]
    rintro ⟨k, h1, h2, _⟩
    omega
  | succ fuel ih =>
    intro pid x
    constructor
    · intro hx
      simp only [InMemoryStore.getDescendants, List.mem_append] at hx
      rcases hx with hx | hx
      · obtain ⟨n, hmem, hp, rfl⟩ := (mem_childIdsOf s pid x).mp hx
        exact ⟨1, Nat.le_refl 1, by omega, DescK.one pid n hmem hp⟩
      · rcases List.mem_flatMap.mp hx with ⟨c, hc, hxc⟩
        obtain ⟨n, hmem, hp, rfl⟩ := (mem_childIdsOf s pid c).mp hc
        obtain ⟨k, hk1, hk2, hd⟩ := (ih n.id x).mp hxc
        exact ⟨k + 1, by omega, by omega, DescK.more pid n k x hmem hp hd⟩
    · rintro ⟨k, hk1, hk2, hd⟩
      simp only [InMemoryStore.getDescendants, List.mem_append]
      cases hd with
      | one _ n hmem hp =>
        left
        exact (mem_childIdsOf s pid n.id).mpr ⟨n, hmem, hp, rfl⟩
      | more _ n k' x hmem hp hd' =>
        right
        refine List.mem_flatMap.mpr ⟨n.id, (mem_childIdsOf s pid n.id).mpr ⟨n, hmem, hp, rfl⟩, ?_⟩
        exact (ih n.id x).mpr ⟨k', descK_pos s hd', by omega, hd'⟩

theorem descChainL_length_pos (s : InMemoryStore) {pid : Nat} {l : List Nat}
    (h : DescChainL s pid l) : 1 ≤ l.length := by
  cases h <;> simp

theorem descChainL_last_descK (s : InMemoryStore) :
    ∀ {pid : Nat} {l : List Nat}, DescChainL s pid l →
      ∀ x, l.getLast? = some x → DescK s l.length pid x := by
  intro pid l h
  induction h with
  | one pid n hn hp =>
    intro x hx
    simp only [List.getLast?_singleton, Option.some.injEq] at hx
    subst hx
    exact DescK.one pid n hn hp
  | more pid n l hn hp hl ih =>
    intro x hx
    have hpos := descChainL_length_pos s hl
    cases l with
    | nil => simp at hpos
    | cons a l' =>
      rw [List.getLast?_cons_cons] at hx
      exact DescK.more pid n (a :: l').length x hn hp (ih x hx)

theorem descK_chain (s : InMemoryStore) :
    ∀ {k pid x : Nat}, DescK s k pid x →
      ∃ l, DescChainL s pid l ∧ l.length = k ∧ l.getLast? = some x := by
  intro k pid x h
  induction h with
  | one pid n hn hp => exact ⟨[n.id], DescChainL.one pid n hn hp, rfl, rfl⟩
  | more pid n k x hn hp hd ih =>
    obtain ⟨l, hc, hlen, hlast⟩ := ih
    refine ⟨n.id :: l, DescChainL.more pid n l hn hp hc, by simp [hlen], ?_⟩
    cases l with
    | nil => cases hlast
    | cons a l' =>
      rw [List.getLast?_cons_cons]
      exact hlast

theorem descChainL_take (s : InMemoryStore) :
    ∀ {pid : Nat} {l : List Nat}, DescChainL s pid l →
      ∀ l₁ l₂, l = l₁ ++ l₂ → l₁ ≠ [] → DescChainL s pid l₁ := by
  intro pid l h
  induction h with
  | one pid n hn hp =>
    intro l₁ l₂ he hne
    cases l₁ with
    | nil => exact absurd rfl hne
    | cons a l₁' =>
      injection he with h1 h2
      have h3 : l₁' = [] ∧ l₂ = [] := List.append_eq_nil.mp h2.symm
      subst h1
      rw [h3.1]
      exact DescChainL.one pid n hn hp
  | more pid n l hn hp hl ih =>
    intro l₁ l₂ he hne
    cases l₁ with
    | nil => exact absurd rfl hne
    | cons a l₁' =>
      injection he with h1 h2
      subst h1
      cases l₁' with
      | nil => exact DescChainL.one pid n hn hp
      | cons b l₁'' =>
        exact DescChainL.more pid n (b :: l₁'') hn hp (ih (b :: l₁'') l₂ h2 (by simp))

theorem descChainL_ids (s : InMemoryStore) :
    ∀ {pid : Nat} {l : List Nat}, DescChainL s pid l →
      ∀ y ∈ l, ∃ n, n ∈ s.nodes ∧ n.id = y := by
  intro pid l h
  induction h with
  | one pid n hn _ =>
    intro y hy
    rw [List.mem_singleton] at hy
    subst hy
    exact ⟨n, hn, rfl⟩
  | more pid n l hn hp hl ih =>
    intro y hy
    rcases List.mem_cons.mp hy with rfl | hy'
    · exact ⟨n, hn, rfl⟩
    · exact ih y hy'

theorem descChainL_nodup (s : InMemoryStore) (hacyc : Acyclic s) :
    ∀ {pid : Nat} {l : List Nat}, DescChainL s pid l → l.Nodup := by
  intro pid l h
  induction h with
  | one _ _ _ _ => simp
  | more pid n l hn hp hl ih =>
    rw [List.nodup_cons]
    refine ⟨?_, ih⟩
    intro hmem
    obtain ⟨l₁, l₂, he⟩ := List.append_of_mem hmem
    have ht : DescChainL s n.id (l₁ ++ [n.id]) := by
      refine descChainL_take s hl (l₁ ++ [n.id]) l₂ ?_ (by simp)
      rw [he]
      simp
    have hd := descChainL_last_descK s ht n.id (List.getLast?_concat l₁)
    exact hacyc n.id _ hd

theorem descChainL_length_le (s : InMemoryStore) (hacyc : Acyclic s)
    {pid : Nat} {l : List Nat} (h : DescChainL s pid l) :
    l.length ≤ s.nodes.length := by
  have hnd := descChainL_nodup s hacyc h
  have hsub : l ⊆ s.nodes.map ConversationNode.id := by
    intro y hy
    obtain ⟨n, hn, rfl⟩ := descChainL_ids s h y hy
    exact List.mem_map_of_mem _ hn
  have hle := (List.subperm_of_subset hnd hsub).length_le
  simpa using hle

theorem isDesc_iff_mem_getDescendants (s : InMemoryStore) (hacyc : Acyclic s)
    (pid x : Nat) :
    x ∈ InMemoryStore.getDescendants s s.nodes.length pid ↔ IsDesc s pid x := by
  constructor
  · intro hx
    obtain ⟨k, _, _, hd⟩ := (mem_getDescendants_iff s s.nodes.length pid x).mp hx
    exact ⟨k, hd⟩
  · rintro ⟨k, hd⟩
    obtain ⟨l, hc, hlen, hlast⟩ := descK_chain s hd
    exact (mem_getDescendants_iff s s.nodes.length pid x).mpr
      ⟨l.length, descChainL_length_pos s hc, descChainL_length_le s hacyc hc,
       descChainL_last_descK s hc x hlast⟩

theorem contains_getDescendants_iff (s : InMemoryStore) (hacyc : Acyclic s)
    (pid x : Nat) :
    ((InMemoryStore.getDescendants s s.nodes.length pid).contains x = true) ↔
      IsDesc s pid x := by
  rw [← isDesc_iff_mem_getDescendants s hacyc pid x]
  simp [List.contains, List.elem_iff]

theorem acyclic_of_parentBelowId (s : InMemoryStore)
    (h : ∀ n ∈ s.nodes, parentBelowId n = true) : Acyclic s := by
  have hlt : ∀ k pid x, DescK s k pid x → pid < x := by
    intro k pid x hd
    induction hd with
    | one pid n hn hp =>
      have := h n hn
      unfold parentBelowId at this
      rw [hp] at this
      exact of_decide_eq_true this
    | more pid n k x hn hp hd ih =>
      have := h n hn
      unfold parentBelowId at this
      rw [hp] at this
      exact Nat.lt_trans (of_decide_eq_true this) ih
  intro x k hd
  exact absurd (hlt k x x hd) (Nat.lt_irrefl x)

/-- C8: deleting an existing non-root node (on a store with an acyclic
parent-pointer graph) turns the node list into the original list filtered by
subtree membership — the node itself and all of its transitive descendants
are removed, everything else kept in place — removes exactly the edges with
an endpoint in the removed set, and leaves the conversations untouched. -/
theorem c8_delete_cascades (s : InMemoryStore) (nid : Nat)
    (node : ConversationNode) (hn : s.getNode nid = some node)
    (_hnr : node.parent_id ≠ none) (hacyc : Acyclic s) :
    (s.deleteNode nid).1.nodes = s.nodes.filter (deleteKeepNode s nid) ∧
    (s.deleteNode nid).1.edges = s.edges.filter (deleteKeepEdge s nid) ∧
    (s.deleteNode nid).1.conversations = s.conversations ∧
    (s.deleteNode nid).2 = true ∧
    (∀ n : ConversationNode, deleteKeepNode s nid n = true ↔
      ¬ (n.id = nid ∨ IsDesc s nid n.id)) ∧
    (∀ e : ConversationEdge, deleteKeepEdge s nid e = true ↔
      ¬ ((e.source_node_id = nid ∨ IsDesc s nid e.source_node_id) ∨
         (e.target_node_id = nid ∨ IsDesc s nid e.target_node_id))) := by
  refine ⟨?_, ?_, ?_, ?_, ?_, ?_⟩
  · unfold InMemoryStore.deleteNode
    rw [hn]
    simp only
    rw [List.filter_filter]
    refine List.filter_congr ?_
    intro n _
    unfold deleteKeepNode inDeletedSubtree
    by_cases h1 : n.id = nid <;>
      by_cases h2 : (InMemoryStore.getDescendants s s.nodes.length nid).contains n.id
        = true <;>
      simp [h1, h2]
  · unfold InMemoryStore.deleteNode
    rw [hn]
    simp only
    refine List.filter_congr ?_
    intro e _
    unfold deleteKeepEdge inDeletedSubtree
    by_cases h1 : e.source_node_id = nid <;>
      by_cases h2 : e.target_node_id = nid <;>
      by_cases h3 : (InMemoryStore.getDescendants s s.nodes.length nid).contains
        e.source_node_id = true <;>
      by_cases h4 : (InMemoryStore.getDescendants s s.nodes.length nid).contains
        e.target_node_id = true <;>
      simp [h1, h2, h3, h4]
  · unfold InMemoryStore.deleteNode
    rw [hn]
  · unfold InMemoryStore.deleteNode
    rw [hn]
  · intro n
    unfold deleteKeepNode inDeletedSubtree
    by_cases h1 : n.id = nid <;>
      by_cases hb : n.id ∈ InMemoryStore.getDescendants s s.nodes.length nid <;>
      simp [h1, hb, ← isDesc_iff_mem_getDescendants s hacyc nid]
  · intro e
    unfold deleteKeepEdge inDeletedSubtree
    by_cases h1 : e.source_node_id = nid <;>
      by_cases h2 : e.target_node_id = nid <;>
      by_cases hb3 : e.source_node_id ∈ InMemoryStore.getDescendants s s.nodes.length nid <;>
      by_cases hb4 : e.target_node_id ∈ InMemoryStore.getDescendants s s.nodes.length nid <;>
      simp [h1, h2, hb3, hb4, ← isDesc_iff_mem_getDescendants s hacyc nid]

/-- Witness for `c8_delete_cascades`: deleting node 2 of the four-node store
removes nodes 2 and 3 and edges 10 and 11, keeping nodes 1 and 4, edge 12,
and the conversation. -/
theorem c8_delete_cascades_witness :
    (wStore8.deleteNode 2).1.nodes = wStore8.nodes.filter (deleteKeepNode wStore8 2) ∧
    (wStore8.deleteNode 2).1.edges = wStore8.edges.filter (deleteKeepEdge wStore8 2) ∧
    (wStore8.deleteNode 2).1.conversations = wStore8.conversations ∧
    (wStore8.deleteNode 2).2 = true := by
  have h := c8_delete_cascades wStore8 2
    { id := 2, conversation_id := 20, parent_id := some 1, context := "C",
      response := some "r1", query := some "q1", model := none, latency_ms := none }
    (by decide) (by decide) (acyclic_of_parentBelowId wStore8 (by decide))
  exact ⟨h.1, h.2.1, h.2.2.1, h.2.2.2.1⟩

/-! ## Claim C4: eager node creation before streaming -/

theorem find?_append_fresh {α} (key : α → Nat) (l : List α) (x : α)
    (h : ∀ y ∈ l, key y ≠ key x) :
    (l ++ [x]).find? (fun y => key y = key x) = some x := by
  rw [List.find?_append, find?_key_none key l (key x) h]
  simp

theorem find?_append_miss {α} (key : α → Nat) (l : List α) (x : α) (k : Nat)
    (h : key x ≠ k) :
    (l ++ [x]).find? (fun y => key y = k) = l.find? (fun y => key y = k) := by
  rw [List.find?_append]
  cases hf : l.find? (fun y => key y = k) with
  | none => simp [Option.or, h]
  | some z => simp [Option.or]

theorem branchPrepare_ok (s : InMemoryStore) (cid : Nat) (req : BranchRequest)
    (nid eid : Nat) (prep : PreparedTurn)
    (hok : branchPrepare s cid req nid eid = Except.ok prep) :
    ∃ conversation parentNode,
      s.getConversation cid = some conversation ∧
      s.getNode (req.parent_node_id.getD conversation.active_node_id)
        = some parentNode ∧
      prep.parentId = req.parent_node_id.getD conversation.active_node_id ∧
      prep.newNode =
        { id := nid, conversation_id := cid, parent_id := some prep.parentId,
          context := String.intercalate "\n\n"
            (buildContextParts (s.getAncestors prep.parentId) req.query),
          response := some "", query := some req.query, model := req.model,
          latency_ms := none } ∧
      prep.store =
        { conversations := s.conversations.map
            (fun c => if c.id = cid then { c with active_node_id := nid } else c),
          nodes := dictInsertBy ConversationNode.id s.nodes prep.newNode,
          edges := dictInsertBy ConversationEdge.id s.edges
            { id := eid, source_node_id := prep.parentId, target_node_id := nid,
              query_text := req.query },
          usedIds := s.usedIds ++ [nid, eid] } := by
  simp only [branchPrepare] at hok
  split at hok
  · exact Except.noConfusion hok
  next conversation hconv =>
    split at hok
    · exact Except.noConfusion hok
    next parent hpar =>
      injection hok with hok
      subst hok
      exact ⟨conversation, parent, hconv, hpar, rfl, rfl, rfl⟩

/-- C4: a successful `branchPrepare` — everything that happens before any
token is produced — has already created the new node with an empty response,
the request's query and the requested model (or null), created the edge from
the resolved parent to the new node, and reassigned the conversation's
active node to the new node.  If thereafter every candidate model rejects,
the turn ends with exactly one stream error message and the store is left in
that prepared state: the node persists with its empty response and the
active node stays reassigned. -/
theorem c4_eager_creation (s : InMemoryStore) (cid : Nat) (req : BranchRequest)
    (nid eid : Nat) (prep : PreparedTurn)
    (hok : branchPrepare s cid req nid eid = Except.ok prep)
    (hfn : ∀ n ∈ s.nodes, n.id ≠ nid) (hfe : ∀ e ∈ s.edges, e.id ≠ eid) :
    prep.newNode.response = some "" ∧
    prep.newNode.query = some req.query ∧
    prep.newNode.model = req.model ∧
    prep.store.getNode nid = some prep.newNode ∧
    (∃ e, prep.store.getEdge eid = some e ∧ e.source_node_id = prep.parentId ∧
      e.target_node_id = nid ∧ e.query_text = req.query) ∧
    (∃ c, prep.store.getConversation cid = some c ∧ c.active_node_id = nid) ∧
    (∀ (engine : Engine) (elapsedMs : Nat),
      (∀ m : String, rejectsUpFront (engine prep.sysContext prep.userPayload m) = true) →
      ∃ msg, websocketStream s cid req engine nid eid elapsedMs
        = (prep.store, [Message.error msg])) := by
  obtain ⟨conversation, parent, hconv, hpar, hpid, hnode, hstore⟩ :=
    branchPrepare_ok s cid req nid eid prep hok
  have hidnew : prep.newNode.id = nid := by rw [hnode]
  refine ⟨by rw [hnode], by rw [hnode], by rw [hnode], ?_, ?_, ?_, ?_⟩
  · show prep.store.getNode nid = some prep.newNode
    unfold InMemoryStore.getNode
    rw [hstore]
    have hins : dictInsertBy ConversationNode.id s.nodes prep.newNode
        = s.nodes ++ [prep.newNode] :=
      dictInsertBy_fresh _ _ _ (by rw [hidnew]; exact hfn)
    rw [hins, ← hidnew]
    exact find?_append_fresh ConversationNode.id s.nodes prep.newNode
      (by rw [hidnew]; exact hfn)
  · refine ⟨(⟨eid, prep.parentId, nid, req.query⟩ : ConversationEdge), ?_, rfl, rfl, rfl⟩
    unfold InMemoryStore.getEdge
    rw [hstore]
    have hins : dictInsertBy ConversationEdge.id s.edges
          ⟨eid, prep.parentId, nid, req.query⟩
        = s.edges ++ [⟨eid, prep.parentId, nid, req.query⟩] :=
      dictInsertBy_fresh _ _ _ hfe
    rw [hins]
    exact find?_append_fresh ConversationEdge.id s.edges
      ⟨eid, prep.parentId, nid, req.query⟩ hfe
  · refine ⟨({ conversation with active_node_id := nid } : Conversation), ?_, rfl⟩
    unfold InMemoryStore.getConversation
    rw [hstore]
    have hkey : ∀ c : Conversation,
        Conversation.id (if c.id = cid then ({ c with active_node_id := nid } : Conversation) else c)
          = Conversation.id c := by
      intro c
      by_cases hc : c.id = cid <;> simp [hc]
    rw [find?_map_keyed Conversation.id
      (fun c => if c.id = cid then ({ c with active_node_id := nid } : Conversation) else c)
      cid hkey s.conversations]
    unfold InMemoryStore.getConversation at hconv
    rw [hconv]
    have hcid : conversation.id = cid :=
      of_decide_eq_true
        (@List.find?_some _ (fun c : Conversation => decide (c.id = cid)) _ _ hconv)
    simp [hcid]
  · intro engine elapsedMs hrej
    obtain ⟨msg, hmsg⟩ := runCandidates_all_reject engine prep.sysContext
      prep.userPayload freeModels none (fun m _ => hrej m)
    refine ⟨msg, ?_⟩
    have hrun : turnRun prep engine = ⟨freeModels, [], Except.error msg⟩ := by
      unfold turnRun streamResponse
      rw [show modelsToTry none freeModels = freeModels from by simp [modelsToTry, pyTruthy]]
      exact hmsg
    unfold websocketStream
    rw [hok]
    simp only [hrun]
    simp

/-- Witness for `c4_eager_creation` on the demonstration store with every
candidate rejecting. -/
theorem c4_eager_creation_witness :
    wPrep.newNode.response = some "" ∧
    wPrep.newNode.query = some wReq.query ∧
    wPrep.newNode.model = wReq.model ∧
    wPrep.store.getNode 5 = some wPrep.newNode ∧
    (∃ e, wPrep.store.getEdge 6 = some e ∧ e.source_node_id = wPrep.parentId ∧
      e.target_node_id = 5 ∧ e.query_text = wReq.query) ∧
    (∃ c, wPrep.store.getConversation 1 = some c ∧ c.active_node_id = 5) ∧
    (∃ msg, websocketStream wStore 1 wReq rejectAllEngine 5 6 0
      = (wPrep.store, [Message.error msg])) := by
  have h := c4_eager_creation wStore 1 wReq 5 6 wPrep (by decide) (by decide) (by decide)
  exact ⟨h.1, h.2.1, h.2.2.1, h.2.2.2.1, h.2.2.2.2.1, h.2.2.2.2.2.1,
    h.2.2.2.2.2.2 rejectAllEngine 0 (fun m => rfl)⟩

/-! ## Claims C6 and C10: reachable-state invariants -/

theorem getNode_spec (s : InMemoryStore) {nid : Nat} {n : ConversationNode}
    (h : s.getNode nid = some n) : n ∈ s.nodes ∧ n.id = nid :=
  ⟨List.mem_of_find?_eq_some h,
   of_decide_eq_true
     (@List.find?_some _ (fun x : ConversationNode => decide (x.id = nid)) _ _ h)⟩

theorem getConversation_spec (s : InMemoryStore) {cid : Nat} {c : Conversation}
    (h : s.getConversation cid = some c) : c ∈ s.conversations ∧ c.id = cid :=
  ⟨List.mem_of_find?_eq_some h,
   of_decide_eq_true
     (@List.find?_some _ (fun x : Conversation => decide (x.id = cid)) _ _ h)⟩

theorem key_eq_of_mem {α} (key : α → Nat) (l : List α) (hnd : (l.map key).Nodup)
    {x y : α} (hx : x ∈ l) (hy : y ∈ l) (hk : key x = key y) : x = y := by
  have h1 := find?_key_unique key l hnd x hx
  have h2 := find?_key_unique key l hnd y hy
  rw [hk] at h1
  rw [h1] at h2
  exact Option.some.inj h2

theorem nodup_map_append_fresh {α} (key : α → Nat) (l : List α) (x : α)
    (hnd : (l.map key).Nodup) (hf : ∀ y ∈ l, key y ≠ key x) :
    ((l ++ [x]).map key).Nodup := by
  rw [List.map_append, List.nodup_append]
  refine ⟨hnd, by simp, ?_⟩
  intro a ha hb
  simp only [List.map_cons, List.map_nil, List.mem_singleton] at hb
  rcases List.mem_map.mp ha with ⟨y, hy, rfl⟩
  exact hf y hy hb

theorem nodup_key_filter {α} (key : α → Nat) (l : List α) (p : α → Bool)
    (hnd : (l.map key).Nodup) : ((l.filter p).map key).Nodup :=
  hnd.sublist ((List.filter_sublist l).map key)

theorem map_key_ids {α} (key : α → Nat) (f : α → α)
    (hf : ∀ y, key (f y) = key y) (l : List α) :
    (l.map f).map key = l.map key := by
  rw [List.map_map]
  exact List.map_congr_left (fun a _ => hf a)

theorem descK_target (s : InMemoryStore) :
    ∀ {k pid x : Nat}, DescK s k pid x →
      ∃ m, m ∈ s.nodes ∧ m.id = x ∧ ∃ p, m.parent_id = some p := by
  intro k pid x h
  induction h with
  | one pid n hn hp => exact ⟨n, hn, rfl, pid, hp⟩
  | more pid n k x hn hp hd ih => exact ih

theorem emptyStore_wf : StoreWF emptyStore := by
  refine ⟨by simp [emptyStore], by simp [emptyStore], by simp [emptyStore],
    ⟨?_, ?_, ?_⟩, ?_, ?_⟩ <;>
    intro x hx <;> simp [emptyStore] at hx

theorem wf_createConversation (s : InMemoryStore) (title ctx : String)
    (cid nid : Nat) (hwf : StoreWF s) (hc : cid ∉ s.usedIds)
    (hn : nid ∉ s.usedIds) (hne : cid ≠ nid) :
    StoreWF (createConversationApi s title ctx cid nid).1 := by
  obtain ⟨hndc, hndn, hnde, ⟨htrc, htrn, htre⟩, hao, hroot⟩ := hwf
  have hfc : ∀ c ∈ s.conversations, c.id ≠ cid :=
    fun c hcm he => hc (he ▸ (htrc c hcm).1)
  have hfn : ∀ n ∈ s.nodes, n.id ≠ nid :=
    fun n hnm he => hn (he ▸ (htrn n hnm).1)
  have hrootNode :
      ∀ k : Nat, (∀ y ∈ s.nodes, y.id ≠ k) →
        (dictInsertBy ConversationNode.id s.nodes
          ⟨nid, cid, none, ctx, none, none, none, none⟩).find?
            (fun y => y.id = k) =
          [(⟨nid, cid, none, ctx, none, none, none, none⟩ : ConversationNode)].find?
            (fun y => y.id = k) := by
    intro k hk
    rw [dictInsertBy_fresh ConversationNode.id s.nodes _ hfn, List.find?_append,
      find?_key_none ConversationNode.id s.nodes k hk]
    rfl
  have hmiss :
      ∀ k : Nat, nid ≠ k →
        (dictInsertBy ConversationNode.id s.nodes
          ⟨nid, cid, none, ctx, none, none, none, none⟩).find?
            (fun y => y.id = k) = s.nodes.find? (fun y => y.id = k) := by
    intro k hk
    rw [dictInsertBy_fresh ConversationNode.id s.nodes _ hfn]
    exact find?_append_miss ConversationNode.id s.nodes _ k hk
  unfold createConversationApi
  simp only [InMemoryStore.createConversation, InMemoryStore.createNode]
  refine ⟨?_, ?_, ?_, ⟨?_, ?_, ?_⟩, ?_, ?_⟩
  · rw [dictInsertBy_fresh Conversation.id s.conversations _ hfc]
    exact nodup_map_append_fresh Conversation.id s.conversations _ hndc hfc
  · rw [dictInsertBy_fresh ConversationNode.id s.nodes _ hfn]
    exact nodup_map_append_fresh ConversationNode.id s.nodes _ hndn hfn
  · exact hnde
  · intro c hcm
    rw [dictInsertBy_fresh Conversation.id s.conversations _ hfc] at hcm
    rcases List.mem_append.mp hcm with hcm | hcm
    · obtain ⟨h1, h2, h3⟩ := htrc c hcm
      exact ⟨by simp [h1], by simp [h2], by simp [h3]⟩
    · rw [List.mem_singleton] at hcm
      subst hcm
      refine ⟨by simp, by simp, by simp⟩
  · intro n hnm
    rw [dictInsertBy_fresh ConversationNode.id s.nodes _ hfn] at hnm
    rcases List.mem_append.mp hnm with hnm | hnm
    · obtain ⟨h1, h2⟩ := htrn n hnm
      exact ⟨by simp [h1], fun p hp => by simp [h2 p hp]⟩
    · rw [List.mem_singleton] at hnm
      subst hnm
      exact ⟨by simp, fun p hp => by cases hp⟩
  · intro e hem
    obtain ⟨h1, h2, h3⟩ := htre e hem
    exact ⟨by simp [h1], by simp [h2], by simp [h3]⟩
  · intro c hcm n hlook
    rw [dictInsertBy_fresh Conversation.id s.conversations _ hfc] at hcm
    unfold InMemoryStore.getNode at hlook
    rcases List.mem_append.mp hcm with hcm | hcm
    · have hne2 : nid ≠ c.active_node_id :=
        fun he => hn (he ▸ (htrc c hcm).2.2)
      rw [hmiss c.active_node_id hne2] at hlook
      exact hao c hcm n hlook
    · rw [List.mem_singleton] at hcm
      subst hcm
      simp only at hlook
      rw [hrootNode nid hfn] at hlook
      rw [List.find?_cons_of_pos _ (by simp)] at hlook
      injection hlook with hlook
      rw [← hlook]
  · intro c hcm
    rw [dictInsertBy_fresh Conversation.id s.conversations _ hfc] at hcm
    rcases List.mem_append.mp hcm with hcm | hcm
    · obtain ⟨r, hr, hrc, hrp⟩ := hroot c hcm
      have hne2 : nid ≠ c.root_node_id :=
        fun he => hn (he ▸ (htrc c hcm).2.1)
      refine ⟨r, ?_, hrc, hrp⟩
      unfold InMemoryStore.getNode at hr ⊢
      rw [hmiss c.root_node_id hne2]
      exact hr
    · rw [List.mem_singleton] at hcm
      subst hcm
      refine ⟨⟨nid, cid, none, ctx, none, none, none, none⟩, ?_, rfl, rfl⟩
      unfold InMemoryStore.getNode
      simp only
      rw [hrootNode nid hfn]
      rw [List.find?_cons_of_pos _ (by simp)]

theorem wf_selectNode (s : InMemoryStore) (cid nid : Nat) (hwf : StoreWF s) :
    StoreWF (selectNodeApi s cid nid).1 := by
  obtain ⟨hndc, hndn, hnde, ⟨htrc, htrn, htre⟩, hao, hroot⟩ := hwf
  unfold selectNodeApi
  cases hconv : s.getConversation cid with
  | none => exact ⟨hndc, hndn, hnde, ⟨htrc, htrn, htre⟩, hao, hroot⟩
  | some conversation =>
    cases hnode : s.getNode nid with
    | none => exact ⟨hndc, hndn, hnde, ⟨htrc, htrn, htre⟩, hao, hroot⟩
    | some node =>
      by_cases hb : node.conversation_id ≠ cid
      · simp only [if_pos hb]
        exact ⟨hndc, hndn, hnde, ⟨htrc, htrn, htre⟩, hao, hroot⟩
      · simp only [if_neg hb]
        push_neg at hb
        have hkey : ∀ c : Conversation,
            Conversation.id
              (if c.id = cid then ({ c with active_node_id := nid } : Conversation) else c)
              = Conversation.id c := by
          intro c
          by_cases hcc : c.id = cid <;> simp [hcc]
        refine ⟨?_, hndn, hnde, ⟨?_, htrn, htre⟩, ?_, ?_⟩
        · rw [map_key_ids Conversation.id _ hkey]
          exact hndc
        · intro c hcm
          rcases List.mem_map.mp hcm with ⟨c0, hc0, rfl⟩
          obtain ⟨h1, h2, h3⟩ := htrc c0 hc0
          by_cases hcc : c0.id = cid
          · simp only [if_pos hcc]
            exact ⟨h1, h2,
              (getNode_spec s hnode).2 ▸ (htrn node (getNode_spec s hnode).1).1⟩
          · simp only [if_neg hcc]
            exact ⟨h1, h2, h3⟩
        · intro c hcm n hlook
          rcases List.mem_map.mp hcm with ⟨c0, hc0, rfl⟩
          by_cases hcc : c0.id = cid
          · simp only [if_pos hcc] at hlook ⊢
            have hlook2 : s.getNode nid = some n := hlook
            rw [hnode] at hlook2
            injection hlook2 with hlook2
            rw [← hlook2]
            simp [hb, hcc]
          · simp only [if_neg hcc] at hlook ⊢
            exact hao c0 hc0 n hlook
        · intro c hcm
          rcases List.mem_map.mp hcm with ⟨c0, hc0, rfl⟩
          obtain ⟨r, hr, hrc, hrp⟩ := hroot c0 hc0
          by_cases hcc : c0.id = cid
          · simp only [if_pos hcc]
            exact ⟨r, hr, hrc, hrp⟩
          · simp only [if_neg hcc]
            exact ⟨r, hr, hrc, hrp⟩

theorem not_mem_descendants_of_root (s : InMemoryStore) (hndn : (s.nodes.map ConversationNode.id).Nodup)
    {r : ConversationNode} (hr : r ∈ s.nodes) (hrp : r.parent_id = none)
    (fuel pid : Nat) : r.id ∉ InMemoryStore.getDescendants s fuel pid := by
  intro hmem
  obtain ⟨k, _, _, hd⟩ := (mem_getDescendants_iff s fuel pid r.id).mp hmem
  obtain ⟨m, hm, hmid, p, hmp⟩ := descK_target s hd
  have : m = r := key_eq_of_mem ConversationNode.id s.nodes hndn hm hr hmid
  rw [this] at hmp
  rw [hrp] at hmp
  cases hmp

theorem wf_deleteNode (s : InMemoryStore) (nid : Nat) (hwf : StoreWF s) :
    StoreWF (deleteNodeApi s nid).1 := by
  obtain ⟨hndc, hndn, hnde, ⟨htrc, htrn, htre⟩, hao, hroot⟩ := hwf
  unfold deleteNodeApi
  cases hnode : s.getNode nid with
  | none => exact ⟨hndc, hndn, hnde, ⟨htrc, htrn, htre⟩, hao, hroot⟩
  | some node =>
    by_cases hp : node.parent_id = none
    · simp only [if_pos hp]
      exact ⟨hndc, hndn, hnde, ⟨htrc, htrn, htre⟩, hao, hroot⟩
    · simp only [if_neg hp]
      unfold InMemoryStore.deleteNode
      rw [hnode]
      simp only
      refine ⟨hndc, ?_, ?_, ⟨htrc, ?_, ?_⟩, ?_, ?_⟩
      · exact nodup_key_filter ConversationNode.id _ _
          (nodup_key_filter ConversationNode.id _ _ hndn)
      · exact nodup_key_filter ConversationEdge.id _ _ hnde
      · intro n hnm
        exact htrn n (List.mem_of_mem_filter (List.mem_of_mem_filter hnm))
      · intro e hem
        exact htre e (List.mem_of_mem_filter hem)
      · intro c hcm n hlook
        have h1 := find?_filter_key ConversationNode.id _ _ c.active_node_id
          (nodup_key_filter ConversationNode.id _ _ hndn) hlook
        have h2 := find?_filter_key ConversationNode.id _ _ c.active_node_id hndn h1
        exact hao c hcm n h2
      · intro c hcm
        obtain ⟨r, hr, hrc, hrp⟩ := hroot c hcm
        obtain ⟨hrmem, hrid⟩ := getNode_spec s hr
        have hnotdesc : r.id ∉ InMemoryStore.getDescendants s s.nodes.length nid :=
          not_mem_descendants_of_root s hndn hrmem hrp s.nodes.length nid
        have hrne : r.id ≠ nid := by
          intro he
          obtain ⟨hnm, hnid⟩ := getNode_spec s hnode
          have : r = node := key_eq_of_mem ConversationNode.id s.nodes hndn hrmem hnm
            (by rw [he, hnid])
          rw [this] at hrp
          exact hp hrp
        have hA : r ∈ s.nodes.filter
            (fun n => decide (¬ (InMemoryStore.getDescendants s s.nodes.length nid).contains n.id = true)) := by
          refine List.mem_filter.mpr ⟨hrmem, ?_⟩
          refine decide_eq_true ?_
          intro hc
          exact hnotdesc (by simpa [List.contains, List.elem_iff] using hc)
        refine ⟨r, ?_, hrc, hrp⟩
        rw [← hrid]
        have hkeep := find?_filter_key_of_keep ConversationNode.id
          (s.nodes.filter
            (fun n => decide (¬ (InMemoryStore.getDescendants s s.nodes.length nid).contains n.id = true)))
          (fun n => decide (n.id ≠ nid))
          (nodup_key_filter ConversationNode.id _ _ hndn) hA
          (by simp [hrne])
        exact hkeep

theorem wf_deleteConversation (s : InMemoryStore) (cid : Nat) (hwf : StoreWF s) :
    StoreWF (deleteConversationApi s cid).1 := by
  obtain ⟨hndc, hndn, hnde, ⟨htrc, htrn, htre⟩, hao, hroot⟩ := hwf
  unfold deleteConversationApi InMemoryStore.deleteConversation
  cases hconv : s.getConversation cid with
  | none => exact ⟨hndc, hndn, hnde, ⟨htrc, htrn, htre⟩, hao, hroot⟩
  | some conversation =>
    simp only [if_pos rfl]
    refine ⟨?_, ?_, ?_, ⟨?_, ?_, ?_⟩, ?_, ?_⟩
    · exact nodup_key_filter Conversation.id _ _ hndc
    · exact nodup_key_filter ConversationNode.id _ _ hndn
    · exact nodup_key_filter ConversationEdge.id _ _ hnde
    · intro c hcm
      exact htrc c (List.mem_of_mem_filter hcm)
    · intro n hnm
      exact htrn n (List.mem_of_mem_filter hnm)
    · intro e hem
      exact htre e (List.mem_of_mem_filter hem)
    · intro c hcm n hlook
      have h1 := find?_filter_key ConversationNode.id _ _ c.active_node_id hndn hlook
      exact hao c (List.mem_of_mem_filter hcm) n h1
    · intro c hcm
      have hcme := List.mem_filter.mp hcm
      have hcne : c.id ≠ cid := of_decide_eq_true hcme.2
      obtain ⟨r, hr, hrc, hrp⟩ := hroot c hcme.1
      obtain ⟨hrmem, hrid⟩ := getNode_spec s hr
      have hrkeep : ¬ ((s.nodes.filter
          (fun n => n.conversation_id = cid)).map ConversationNode.id).contains r.id
          = true := by
        intro hc
        have hmem : r.id ∈ (s.nodes.filter
            (fun n => n.conversation_id = cid)).map ConversationNode.id := by
          simpa [List.contains, List.elem_iff] using hc
        rcases List.mem_map.mp hmem with ⟨m, hm, hmid⟩
        rcases List.mem_filter.mp hm with ⟨hms, hmc⟩
        have : m = r := key_eq_of_mem ConversationNode.id s.nodes hndn hms hrmem hmid
        rw [this] at hmc
        rw [hrc] at hmc
        exact hcne (of_decide_eq_true hmc)
      refine ⟨r, ?_, hrc, hrp⟩
      rw [← hrid]
      exact find?_filter_key_of_keep ConversationNode.id s.nodes
        (fun n => decide (¬ ((s.nodes.filter
          (fun n => n.conversation_id = cid)).map ConversationNode.id).contains n.id = true))
        hndn hrmem (decide_eq_true hrkeep)

theorem wf_prepStore (s : InMemoryStore) (cid : Nat) (req : BranchRequest)
    (nid eid : Nat) (prep : PreparedTurn)
    (hok : branchPrepare s cid req nid eid = Except.ok prep) (hwf : StoreWF s)
    (hn : nid ∉ s.usedIds) (he : eid ∉ s.usedIds) (_hne : nid ≠ eid) :
    StoreWF prep.store ∧ prep.store.getNode nid = some prep.newNode ∧
    prep.newNode.id = nid ∧ prep.newNode.conversation_id = cid ∧
    (∃ p, prep.newNode.parent_id = some p) := by
  obtain ⟨hndc, hndn, hnde, ⟨htrc, htrn, htre⟩, hao, hroot⟩ := hwf
  obtain ⟨conversation, parent, hconv, hpar, hpid, hnode, hstore⟩ :=
    branchPrepare_ok s cid req nid eid prep hok
  have hfn : ∀ n ∈ s.nodes, n.id ≠ nid :=
    fun n hnm hb => hn (hb ▸ (htrn n hnm).1)
  have hfe : ∀ e ∈ s.edges, e.id ≠ eid :=
    fun e hem hb => he (hb ▸ (htre e hem).1)
  have hfn2 : ∀ y ∈ s.nodes, y.id ≠ prep.newNode.id := by
    rw [hnode]
    exact hfn
  have hpidused : prep.parentId ∈ s.usedIds := by
    obtain ⟨hpm, hpidx⟩ := getNode_spec s hpar
    rw [hpid, ← hpidx]
    exact (htrn parent hpm).1
  have hkey : ∀ c : Conversation,
      Conversation.id
        (if c.id = cid then ({ c with active_node_id := nid } : Conversation) else c)
        = Conversation.id c := by
    intro c
    by_cases hcc : c.id = cid <;> simp [hcc]
  have hlooknew : prep.store.getNode nid = some prep.newNode := by
    unfold InMemoryStore.getNode
    rw [hstore]
    simp only
    rw [dictInsertBy_fresh ConversationNode.id s.nodes _ hfn2]
    have := find?_append_fresh ConversationNode.id s.nodes prep.newNode hfn2
    rw [show prep.newNode.id = nid from by rw [hnode]] at this
    exact this
  have hmiss : ∀ k : Nat, nid ≠ k →
      prep.store.getNode k = s.getNode k := by
    intro k hk
    unfold InMemoryStore.getNode
    rw [hstore]
    simp only
    rw [dictInsertBy_fresh ConversationNode.id s.nodes _ hfn2]
    refine find?_append_miss ConversationNode.id s.nodes _ k ?_
    rw [show prep.newNode.id = nid from by rw [hnode]]
    exact hk
  refine ⟨⟨?_, ?_, ?_, ⟨?_, ?_, ?_⟩, ?_, ?_⟩, hlooknew, by rw [hnode], by rw [hnode],
    ⟨prep.parentId, by rw [hnode]⟩⟩
  · rw [hstore]
    simp only
    rw [map_key_ids Conversation.id _ hkey]
    exact hndc
  · rw [hstore]
    simp only
    rw [dictInsertBy_fresh ConversationNode.id s.nodes _ hfn2]
    refine nodup_map_append_fresh ConversationNode.id s.nodes _ hndn hfn2
  · rw [hstore]
    simp only
    rw [dictInsertBy_fresh ConversationEdge.id s.edges _ hfe]
    exact nodup_map_append_fresh ConversationEdge.id s.edges _ hnde hfe
  · rw [hstore]
    intro c hcm
    simp only at hcm ⊢
    rcases List.mem_map.mp hcm with ⟨c0, hc0, rfl⟩
    obtain ⟨h1, h2, h3⟩ := htrc c0 hc0
    by_cases hcc : c0.id = cid
    · simp only [if_pos hcc]
      exact ⟨by simp [h1], by simp [h2], by simp⟩
    · simp only [if_neg hcc]
      exact ⟨by simp [h1], by simp [h2], by simp [h3]⟩
  · rw [hstore]
    intro n hnm
    simp only at hnm ⊢
    rw [dictInsertBy_fresh ConversationNode.id s.nodes _ hfn2] at hnm
    rcases List.mem_append.mp hnm with hnm | hnm
    · obtain ⟨h1, h2⟩ := htrn n hnm
      exact ⟨by simp [h1], fun p hp => by simp [h2 p hp]⟩
    · rw [List.mem_singleton] at hnm
      subst hnm
      constructor
      · rw [hnode]
        simp
      · intro p hp
        rw [hnode] at hp
        injection hp with hp
        subst hp
        simp [hpidused]
  · rw [hstore]
    intro e hem
    simp only at hem ⊢
    rw [dictInsertBy_fresh ConversationEdge.id s.edges _ hfe] at hem
    rcases List.mem_append.mp hem with hem | hem
    · obtain ⟨h1, h2, h3⟩ := htre e hem
      exact ⟨by simp [h1], by simp [h2], by simp [h3]⟩
    · rw [List.mem_singleton] at hem
      subst hem
      exact ⟨by simp, by simp [hpidused], by simp⟩
  · intro c hcm n hlook
    rw [hstore] at hcm
    simp only at hcm
    rcases List.mem_map.mp hcm with ⟨c0, hc0, rfl⟩
    by_cases hcc : c0.id = cid
    · simp only [if_pos hcc] at hlook ⊢
      have hlook2 : prep.store.getNode nid = some n := hlook
      rw [hlooknew] at hlook2
      injection hlook2 with hlook2
      rw [← hlook2]
      rw [show prep.newNode.conversation_id = cid from by rw [hnode]]
      exact hcc.symm
    · simp only [if_neg hcc] at hlook ⊢
      have hne2 : nid ≠ c0.active_node_id :=
        fun hb => hn (hb ▸ (htrc c0 hc0).2.2)
      have hlook2 : prep.store.getNode c0.active_node_id = some n := hlook
      rw [hmiss c0.active_node_id hne2] at hlook2
      exact hao c0 hc0 n hlook2
  · intro c hcm
    rw [hstore] at hcm
    simp only at hcm
    rcases List.mem_map.mp hcm with ⟨c0, hc0, rfl⟩
    obtain ⟨r, hr, hrc, hrp⟩ := hroot c0 hc0
    have hne2 : nid ≠ c0.root_node_id :=
      fun hb => hn (hb ▸ (htrc c0 hc0).2.1)
    by_cases hcc : c0.id = cid
    · simp only [if_pos hcc]
      refine ⟨r, ?_, hrc, hrp⟩
      show prep.store.getNode c0.root_node_id = some r
      rw [hmiss c0.root_node_id hne2]
      exact hr
    · simp only [if_neg hcc]
      refine ⟨r, ?_, hrc, hrp⟩
      show prep.store.getNode c0.root_node_id = some r
      rw [hmiss c0.root_node_id hne2]
      exact hr

theorem wf_branch (s : InMemoryStore) (cid : Nat) (req : BranchRequest)
    (engine : Engine) (nid eid elapsedMs : Nat) (hwf : StoreWF s)
    (hn : nid ∉ s.usedIds) (he : eid ∉ s.usedIds) (hne : nid ≠ eid) :
    StoreWF (websocketStream s cid req engine nid eid elapsedMs).1 := by
  unfold websocketStream
  cases hok : branchPrepare s cid req nid eid with
  | error msg => exact hwf
  | ok prep =>
    obtain ⟨hwfp, hlooknew, hid, hcid, p0, hp0⟩ :=
      wf_prepStore s cid req nid eid prep hok hwf hn he hne
    simp only
    cases hres : (turnRun prep engine).result with
    | error e => exact hwfp
    | ok u =>
      obtain ⟨hndc, hndn, hnde, ⟨htrc, htrn, htre⟩, hao, hroot⟩ := hwfp
      set finalNode : ConversationNode :=
        { prep.newNode with
          response := some (String.join (turnRun prep engine).tokens),
          latency_ms := some elapsedMs,
          model := some (pyOrStr req.model "auto-selected-free-model") } with hfinal
      have hg : ∀ y : ConversationNode,
          ConversationNode.id (if y.id = nid then finalNode else y)
            = ConversationNode.id y := by
        intro y
        by_cases hy : y.id = nid
        · simp only [if_pos hy]
          exact hid.trans hy.symm
        · simp only [if_neg hy]
      have hmap : ∀ (k : Nat),
          (prep.store.nodes.map (fun y => if y.id = nid then finalNode else y)).find?
              (fun y => y.id = k)
            = (prep.store.nodes.find? (fun y => y.id = k)).map
                (fun y => if y.id = nid then finalNode else y) :=
        fun k => find?_map_keyed ConversationNode.id _ k hg prep.store.nodes
      refine ⟨hndc, ?_, hnde, ⟨htrc, ?_, htre⟩, ?_, ?_⟩
      · rw [map_key_ids ConversationNode.id _ hg]
        exact hndn
      · intro n hnm
        rcases List.mem_map.mp hnm with ⟨y, hy, rfl⟩
        obtain ⟨hnewmem, _⟩ := getNode_spec prep.store hlooknew
        obtain ⟨t1, t2⟩ := htrn prep.newNode hnewmem
        by_cases hyid : y.id = nid
        · simp only [if_pos hyid]
          exact ⟨t1, fun p hp => t2 p hp⟩
        · simp only [if_neg hyid]
          exact htrn y hy
      · intro c hcm n hlook
        have hlook2 : (prep.store.nodes.map
            (fun y => if y.id = nid then finalNode else y)).find?
              (fun y => y.id = c.active_node_id) = some n := hlook
        rw [hmap c.active_node_id] at hlook2
        cases hbase : prep.store.nodes.find? (fun y => y.id = c.active_node_id) with
        | none => rw [hbase] at hlook2; cases hlook2
        | some n0 =>
          rw [hbase] at hlook2
          injection hlook2 with hlook2
          have hconv0 : n0.conversation_id = c.id := hao c hcm n0 hbase
          by_cases hy : n0.id = nid
          · have hb2 : prep.store.getNode nid = some n0 := by
              have hval := (getNode_spec prep.store (show prep.store.getNode
                c.active_node_id = some n0 from hbase)).2
              have hca : c.active_node_id = nid := hval.symm.trans hy
              rw [hca] at hbase
              exact hbase
            rw [hlooknew] at hb2
            injection hb2 with hb2
            rw [← hlook2]
            simp only [if_pos hy]
            rw [← hb2] at hconv0
            exact hconv0
          · rw [← hlook2]
            simp only [if_neg hy]
            exact hconv0
      · intro c hcm
        obtain ⟨r, hr, hrc, hrp⟩ := hroot c hcm
        have hry : r.id ≠ nid := by
          intro hb
          have hb2 : prep.store.getNode nid = some r := by
            have hval := (getNode_spec prep.store hr).2
            have hcr : c.root_node_id = nid := hval.symm.trans hb
            rw [hcr] at hr
            exact hr
          rw [hlooknew] at hb2
          injection hb2 with hb2
          rw [hb2] at hp0
          rw [hrp] at hp0
          cases hp0
        refine ⟨r, ?_, hrc, hrp⟩
        have hr2 : prep.store.nodes.find? (fun y => y.id = c.root_node_id) = some r := hr
        show (prep.store.nodes.map
            (fun y => if y.id = nid then finalNode else y)).find?
              (fun y => y.id = c.root_node_id) = some r
        rw [hmap c.root_node_id, hr2]
        simp [hry]

theorem reachable_wf : ∀ s : InMemoryStore, Reachable s → StoreWF s := by
  intro s h
  induction h with
  | init => exact emptyStore_wf
  | step s1 s2 _ hs ih =>
    cases hs with
    | createConversation title ctx cid nid hc hn hne =>
      exact wf_createConversation s1 title ctx cid nid ih hc hn hne
    | selectNode cid nid => exact wf_selectNode s1 cid nid ih
    | branch cid req engine nid eid elapsedMs hn he hne =>
      exact wf_branch s1 cid req engine nid eid elapsedMs ih hn he hne
    | deleteNode nid => exact wf_deleteNode s1 nid ih
    | deleteConversation cid => exact wf_deleteConversation s1 cid ih

/-- C6 counterexample: a reachable store state — create a conversation,
branch once (all candidates rejected), then delete the branch node through
the node-deletion endpoint — in which the conversation's `active_node_id`
still names the deleted node, so it refers to no existing node. -/
theorem c6_counterexample : Reachable c6Store ∧ ¬ ActiveExists c6Store := by
  constructor
  · have h1 : Reachable (createConversationApi emptyStore "T" "C" 1 2).1 :=
      Reachable.step _ _ Reachable.init
        (Step.createConversation emptyStore "T" "C" 1 2 (by decide) (by decide)
          (by decide))
    have h2 : Reachable (websocketStream (createConversationApi emptyStore "T" "C" 1 2).1
        1 wReq rejectAllEngine 3 4 0).1 :=
      Reachable.step _ _ h1
        (Step.branch _ 1 wReq rejectAllEngine 3 4 0 (by decide) (by decide) (by decide))
    exact Reachable.step _ _ h2 (Step.deleteNode _ 3)
  · intro h
    have hc : (⟨1, "T", 2, 3⟩ : Conversation) ∈ c6Store.conversations := by decide
    obtain ⟨n, hn, _⟩ := h _ hc
    have hn2 : c6Store.getNode 3 = some n := hn
    have hnone : c6Store.getNode 3 = none := by decide
    rw [hnone] at hn2
    cases hn2

/-- C6 (amended): in every reachable store state, whenever a conversation's
`active_node_id` refers to an existing node, that node belongs to the same
conversation; the existence half of the original claim fails, because
deleting a subtree containing a conversation's active node leaves
`active_node_id` referring to a removed node (see the counterexample). -/
theorem c6_active_owned (s : InMemoryStore) (h : Reachable s) : ActiveOwned s :=
  (reachable_wf s h).2.2.2.2.1

/-- Witness for `c6_active_owned` at a concrete reachable state (after one
conversation creation and one branch). -/
theorem c6_active_owned_witness :
    ActiveOwned (websocketStream (createConversationApi emptyStore "T" "C" 1 2).1
      1 wReq rejectAllEngine 3 4 0).1 :=
  c6_active_owned _
    (Reachable.step _ _
      (Reachable.step _ _ Reachable.init
        (Step.createConversation emptyStore "T" "C" 1 2 (by decide) (by decide)
          (by decide)))
      (Step.branch _ 1 wReq rejectAllEngine 3 4 0 (by decide) (by decide) (by decide)))

/-- C10: in every reachable store state, every conversation's `root_node_id`
refers to an existing node that belongs to that conversation and has a null
`parent_id`. -/
theorem c10_roots_well_formed (s : InMemoryStore) (h : Reachable s) :
    RootsWellFormed s :=
  (reachable_wf s h).2.2.2.2.2

/-- Witness for `c10_roots_well_formed` at a concrete reachable state
(conversation created, branch taken, branch node deleted — the root node
remains well-formed throughout). -/
theorem c10_roots_well_formed_witness : RootsWellFormed c6Store :=
  c10_roots_well_formed c6Store
    (Reachable.step _ _
      (Reachable.step _ _
        (Reachable.step _ _ Reachable.init
          (Step.createConversation emptyStore "T" "C" 1 2 (by decide) (by decide)
            (by decide)))
        (Step.branch _ 1 wReq rejectAllEngine 3 4 0 (by decide) (by decide)
          (by decide)))
      (Step.deleteNode _ 3))
